import Mathlib

/-!
Verification of the core of the tan language (lexer, parser, evaluator)
against its specification. The Rust sources under `src/` are embedded
shallowly: each Rust function becomes an executable Lean definition of the
same name (snake_case kept where Lean allows it; names that collide with
reserved words are suffixed). Machine integers are modelled as `Int` with
the explicit i64 bounds of the source; fallible code returns `Except` or a
dedicated result type; Rust panics (out-of-bounds indexing) and
non-termination are modelled by dedicated `panic` / `timeout` outcomes of a
fuel-indexed evaluator.

Files of the repository that are referenced but absent from the snapshot
(`ann.rs`, `error.rs`, `expr.rs`, `range.rs`, `eval/env.rs`,
`lexer/token.rs`, `lexer/error.rs`, `ops/arithmetic.rs`, `ops/eq.rs`,
`ops/io.rs`) are modelled from the specification; each such definition
carries a doc comment starting with `Modelled from the spec:`.
-/

/-- A half-open byte range `start..end` into the source text
(`range.rs` is absent from the snapshot; modelled from the spec §3.1). -/
abbrev SrcRange : Type := Nat × Nat

/-- The error kinds of Rust's `std::num::ParseIntError`, as produced by
`i64::from_str_radix` (empty input, an invalid digit, overflow past the
i64 bounds). -/
inductive IntParseError : Type where
  | empty : IntParseError
  | invalidDigit : IntParseError
  | posOverflow : IntParseError
  | negOverflow : IntParseError
deriving DecidableEq, Repr

/-- Largest i64 value. -/
def maxI64 : Int := 9223372036854775807

/-- Smallest i64 value. -/
def minI64 : Int := -9223372036854775808

/-- `char::to_digit` without the radix bound: the numeric value of an
ASCII digit or letter (`0`-`9`, `a`-`z`, `A`-`Z`), `none` otherwise.
The radix bound (`value < radix`) is checked at the call sites, as in
Rust's `to_digit(radix)`. -/
def digitValue (c : Char) : Option Nat :=
  if ('0' ≤ c ∧ c ≤ '9') then some (c.toNat - '0'.toNat)
  else if ('a' ≤ c ∧ c ≤ 'z') then some (c.toNat - 'a'.toNat + 10)
  else if ('A' ≤ c ∧ c ≤ 'Z') then some (c.toNat - 'A'.toNat + 10)
  else none

/-- The digit loop of `i64::from_str_radix`: consume digits left to right,
accumulating into an i64 with an overflow check at every step, exactly as
Rust's `checked_mul` / `checked_add` (`checked_sub` for negative input)
sequence does. -/
def fromStrRadixGo (radix : Nat) (neg : Bool) : Int → List Char → Except IntParseError Int
  | acc, [] => .ok acc
  | acc, c :: rest =>
    match digitValue c with
    | none => .error .invalidDigit
    | some d =>
      if d < radix then
        if neg then
          let acc' : Int := acc * radix - d
          if acc' < minI64 then .error .negOverflow else fromStrRadixGo radix neg acc' rest
        else
          let acc' : Int := acc * radix + d
          if maxI64 < acc' then .error .posOverflow else fromStrRadixGo radix neg acc' rest
      else .error .invalidDigit

/-- `i64::from_str_radix`: an optional `+`/`-` sign followed by at least
one digit of the given radix. -/
def from_str_radix (cs : List Char) (radix : Nat) : Except IntParseError Int :=
  match cs with
  | [] => .error .empty
  | c :: rest =>
    if c = '+' then
      match rest with
      | [] => .error .invalidDigit
      | _ => fromStrRadixGo radix false 0 rest
    else if c = '-' then
      match rest with
      | [] => .error .invalidDigit
      | _ => fromStrRadixGo radix true 0 rest
    else fromStrRadixGo radix false 0 (c :: rest)

/-! ## Lexer (`src/lexer.rs`)

The lexer in the snapshot parses number lexemes itself and carries the
parsed `i64` in its `Number` token; its token type (the variants the code
in `src/lexer.rs` constructs) is `LToken` below.  The parser of the same
snapshot pattern-matches a *different* token type (see `Token` further
down), so the two are embedded separately. -/

/-- The tokens `src/lexer.rs` constructs: `Token::Number` carries the
`i64` already parsed by `lex_number`, and `if` / `using` lexemes become
the dedicated `If` / `Using` tokens. -/
inductive LToken : Type where
  | leftParen : LToken
  | rightParen : LToken
  | comment (text : String) : LToken
  | stringT (text : String) : LToken
  | symbol (text : String) : LToken
  | number (n : Int) : LToken
  | annot (text : String) : LToken
  | ifT : LToken
  | usingT : LToken
deriving DecidableEq, Repr

/-- The lexical errors of `src/lexer.rs` (its `error.rs` is absent; the
variants are the ones the lexer code constructs, cf. spec §7). -/
inductive LexicalError : Type where
  | numberError (kind : IntParseError) : LexicalError
  | unterminatedStringError : LexicalError
  | unterminatedAnnotError : LexicalError
  | unexpectedEol : LexicalError
deriving DecidableEq, Repr

/-- `is_whitespace` (lexer.rs:25): standard whitespace plus `,`. -/
def is_whitespace (ch : Char) : Bool :=
  ch.isWhitespace || ch = ','

/-- `is_delimiter` (lexer.rs:29): only `(` and `)` in this snapshot. -/
def is_delimiter (ch : Char) : Bool :=
  ch = '(' || ch = ')'

/-- `is_eol` (lexer.rs:33). -/
def is_eol (ch : Char) : Bool :=
  ch = '\n'

/-- The `Lexer` struct state: the remaining character iterator, the
current index, and the pushback buffer. -/
structure Lexer : Type where
  chars : List Char
  index : Nat
  lookahead : List Char
deriving Repr

/-- `Lexer::new`. -/
def Lexer.new (input : List Char) : Lexer :=
  { chars := input, index := 0, lookahead := [] }

/-- `Lexer::next_char`: the index is incremented *before* checking for
end of input, exactly as in the source. -/
def Lexer.next_char (st : Lexer) : Option Char × Lexer :=
  let st' := { st with index := st.index + 1 }
  match st.lookahead with
  | c :: rest => (some c, { st' with lookahead := rest })
  | [] =>
    match st.chars with
    | c :: rest => (some c, { st' with chars := rest })
    | [] => (none, st')

/-- `Lexer::put_back_char`. -/
def Lexer.put_back_char (ch : Char) (st : Lexer) : Lexer :=
  { st with lookahead := ch :: st.lookahead, index := st.index - 1 }

/-- The double-quote character (written by code to keep the embedding
free of escape sequences). -/
def dquote : Char := Char.ofNat 34

/-- `Lexer::scan_lexeme`: collect characters until whitespace, a
delimiter, end-of-line (which is put back) or end of input. Fuelled:
each iteration consumes a character, `timeout = none` cannot occur for
adequate fuel. -/
def scan_lexeme : Nat → Lexer → String → Nat → Option ((String × SrcRange) × Lexer)
  | 0, _, _, _ => none
  | fuel + 1, st, text, start =>
    match st.next_char with
    | (none, st') => some ((text, (start, st'.index)), st')
    | (some ch, st') =>
      if is_whitespace ch || is_delimiter ch || is_eol ch then
        let st'' := st'.put_back_char ch
        some ((text, (start, st''.index)), st'')
      else scan_lexeme fuel st' (text.push ch) start

/-- `Lexer::scan_lexeme` entry: the start index is captured before the
loop. -/
def Lexer.scan_lexemeFrom (fuel : Nat) (st : Lexer) : Option ((String × SrcRange) × Lexer) :=
  scan_lexeme fuel st "" st.index

/-- Remove every `_` (the number separator), `str::replace('_', "")`. -/
def stripUnderscores (s : String) : String :=
  ⟨s.data.filter (fun c => ¬ (c = '_'))⟩

/-- `str::replace` for a two-character needle: remove every
(left-to-right, non-overlapping) occurrence of `a` followed by `b`. -/
def replace2 (a b : Char) : List Char → List Char
  | [] => []
  | [x] => [x]
  | x :: y :: rest =>
    if x = a ∧ y = b then replace2 a b rest
    else x :: replace2 a b (y :: rest)

/-- `List Char` prefix test for a two-character prefix,
`str::starts_with` specialised to the needles the source uses. -/
def startsWith2 (a b : Char) : List Char → Bool
  | x :: y :: _ => x = a ∧ y = b
  | _ => false

/-- `Lexer::lex_number` (lexer.rs:144): scan the lexeme, strip `_`,
recognise only the `0x` and `0b` radix prefixes (note: no `0o` here, and
`str::replace` removes **every** occurrence of the prefix), then parse an
i64 immediately — a `NumberError` is raised by the lexer itself. -/
def lex_number (fuel : Nat) (st : Lexer) :
    Option (Except (LexicalError × SrcRange) ((LToken × SrcRange) × Lexer)) :=
  match st.scan_lexemeFrom fuel with
  | none => none
  | some ((lexeme, range), st') =>
    let cs := (stripUnderscores lexeme).data
    let (cs, radix) :=
      if startsWith2 '0' 'x' cs then (replace2 '0' 'x' cs, 16)
      else if startsWith2 '0' 'b' cs then (replace2 '0' 'b' cs, 2)
      else (cs, 10)
    match from_str_radix cs radix with
    | .error e => some (.error (.numberError e, range))
    | .ok n => some (.ok ((.number n, range), st'))

/-- `Lexer::lex_symbol` (lexer.rs:172): scan a lexeme; `if` and `using`
become dedicated tokens. -/
def lex_symbol (fuel : Nat) (st : Lexer) :
    Option ((LToken × SrcRange) × Lexer) :=
  match st.scan_lexemeFrom fuel with
  | none => none
  | some ((lexeme, range), st') =>
    let token : LToken :=
      if lexeme = "if" then .ifT
      else if lexeme = "using" then .usingT
      else .symbol lexeme
    some ((token, range), st')

/-- The loop of `Lexer::lex_string` (lexer.rs:185): collect until the
closing quote; returns the text, whether the quote was found, and the
state. -/
def lexStringGo : Nat → Lexer → String → Option ((String × Bool) × Lexer)
  | 0, _, _ => none
  | fuel + 1, st, text =>
    match st.next_char with
    | (none, st') => some ((text, false), st')
    | (some ch, st') =>
      if ch = dquote then some ((text, true), st')
      else lexStringGo fuel st' (text.push ch)

/-- `Lexer::lex_string` (lexer.rs:185): called after the opening quote
was consumed; on a missing closing quote the range end is decremented
and `UnterminatedStringError` is raised. -/
def lex_string (fuel : Nat) (st : Lexer) :
    Option (Except (LexicalError × SrcRange) ((LToken × SrcRange) × Lexer)) :=
  let start := st.index - 1
  match lexStringGo fuel st "" with
  | none => none
  | some ((text, closed), st') =>
    if closed then some (.ok ((.stringT text, (start, st'.index)), st'))
    else some (.error (.unterminatedStringError, (start, st'.index - 1)))

/-- The loop of `Lexer::lex_comment` (lexer.rs:114): collect until
end-of-line or end of input. -/
def lexCommentGo : Nat → Lexer → String → Option (String × Lexer)
  | 0, _, _ => none
  | fuel + 1, st, text =>
    match st.next_char with
    | (none, st') => some (text, st')
    | (some ch, st') =>
      if ch = '\n' then some (text, st')
      else lexCommentGo fuel st' (text.push ch)

/-- `Lexer::lex_comment` (lexer.rs:114): the leading `;` is already in
the text, the range end is decremented to drop the trailing newline. -/
def lex_comment (fuel : Nat) (st : Lexer) :
    Option ((LToken × SrcRange) × Lexer) :=
  let start := st.index - 1
  match lexCommentGo fuel st ";" with
  | none => none
  | some (text, st') => some ((.comment text, (start, st'.index - 1)), st')

/-- The loop of `Lexer::lex_annotation` (lexer.rs:216): track `(`/`)`
nesting (the counter may go negative, as the Rust `i32` does) and stop at
whitespace or end-of-line only at nesting zero. -/
def lexAnnotGo : Nat → Lexer → String → Int → Option ((String × Int) × Lexer)
  | 0, _, _, _ => none
  | fuel + 1, st, text, nesting =>
    match st.next_char with
    | (none, st') => some ((text, nesting), st')
    | (some ch, st') =>
      if ch = '(' then lexAnnotGo fuel st' (text.push ch) (nesting + 1)
      else if ch = ')' then lexAnnotGo fuel st' (text.push ch) (nesting - 1)
      else if nesting = 0 ∧ (is_whitespace ch || is_eol ch) then
        some ((text, nesting), st'.put_back_char ch)
      else lexAnnotGo fuel st' (text.push ch) nesting

/-- `Lexer::lex_annotation` (lexer.rs:216): unbalanced nesting raises
`UnterminatedAnnotationError`. -/
def lexAnnot (fuel : Nat) (st : Lexer) :
    Option (Except (LexicalError × SrcRange) ((LToken × SrcRange) × Lexer)) :=
  let start := st.index - 1
  match lexAnnotGo fuel st "" 0 with
  | none => none
  | some ((text, nesting), st') =>
    if nesting = 0 then some (.ok ((.annot text, (start, st'.index)), st'))
    else some (.error (.unterminatedAnnotError, (start, st'.index)))

/-- The main loop of `Lexer::lex` (lexer.rs:257). The `(` and `)` tokens
are pushed with the *post-increment* index on both ends
(`self.index..self.index`). `char::is_numeric` is modelled by
`Char.isDigit` (the inputs of interest are ASCII). -/
def lexGo : Nat → Lexer → List (LToken × SrcRange) →
    Option (Except (LexicalError × SrcRange) (List (LToken × SrcRange)))
  | 0, _, _ => none
  | fuel + 1, st, tokens =>
    match st.next_char with
    | (none, _) => some (.ok tokens)
    | (some ch, st') =>
      if ch = '(' then lexGo fuel st' (tokens ++ [(.leftParen, (st'.index, st'.index))])
      else if ch = ')' then lexGo fuel st' (tokens ++ [(.rightParen, (st'.index, st'.index))])
      else if ch = ';' then
        match lex_comment fuel st' with
        | none => none
        | some (tok, st'') => lexGo fuel st'' (tokens ++ [tok])
      else if ch = dquote then
        match lex_string fuel st' with
        | none => none
        | some (.error e) => some (.error e)
        | some (.ok (tok, st'')) => lexGo fuel st'' (tokens ++ [tok])
      else if ch = '-' then
        match st'.next_char with
        | (none, st'') => some (.error (.unexpectedEol, (st''.index - 1, st''.index - 1)))
        | (some ch1, st'') =>
          if ch1.isDigit then
            let st3 := (st''.put_back_char ch1).put_back_char ch
            match lex_number fuel st3 with
            | none => none
            | some (.error e) => some (.error e)
            | some (.ok (tok, st4)) => lexGo fuel st4 (tokens ++ [tok])
          else
            let st3 := (st''.put_back_char ch1).put_back_char ch
            match lex_symbol fuel st3 with
            | none => none
            | some (tok, st4) => lexGo fuel st4 (tokens ++ [tok])
      else if ch = '#' then
        match lexAnnot fuel st' with
        | none => none
        | some (.error e) => some (.error e)
        | some (.ok (tok, st'')) => lexGo fuel st'' (tokens ++ [tok])
      else if is_whitespace ch then lexGo fuel st' tokens
      else if ch.isDigit then
        match lex_number fuel (st'.put_back_char ch) with
        | none => none
        | some (.error e) => some (.error e)
        | some (.ok (tok, st'')) => lexGo fuel st'' (tokens ++ [tok])
      else
        match lex_symbol fuel (st'.put_back_char ch) with
        | none => none
        | some (tok, st'') => lexGo fuel st'' (tokens ++ [tok])

/-- `Lexer::lex`: run the main loop on a fresh lexer over the input. -/
def lex (fuel : Nat) (input : String) :
    Option (Except (LexicalError × SrcRange) (List (LToken × SrcRange))) :=
  lexGo fuel (Lexer.new input.data) []

/-! ## Tokens and errors of the parser (`src/parser.rs`)

`lexer/token.rs` is absent from the snapshot; the token type the parser
pattern-matches is exactly the spec's §3.2 list (its `Number` carries the
lexeme *text*). -/

/-- Modelled from the spec: §3.2 Token, the tagged variant the parser
consumes (`lexer/token.rs` is absent). `Number` keeps the original
lexeme text; the parser decides int vs float and radix. -/
inductive Token : Type where
  | leftParen : Token
  | rightParen : Token
  | leftBracket : Token
  | rightBracket : Token
  | leftBrace : Token
  | rightBrace : Token
  | quote : Token
  | comment (text : String) : Token
  | stringT (text : String) : Token
  | symbol (text : String) : Token
  | number (lexeme : String) : Token
  | annot (text : String) : Token
deriving DecidableEq, Repr

/-- The evident correspondence between the snapshot lexer's token type and
the parser's: shared variants map to themselves, numbers are rendered in
decimal, and the lexer-only `If`/`Using` variants (absent from the
parser's token set) are mapped to plain symbols. Only shared variants are
exercised by any claim. -/
def tokenOfL : LToken → Token
  | .leftParen => .leftParen
  | .rightParen => .rightParen
  | .comment s => .comment s
  | .stringT s => .stringT s
  | .symbol s => .symbol s
  | .number n => .number (toString n)
  | .annot s => .annot s
  | .ifT => .symbol "if"
  | .usingT => .symbol "using"

/-- Modelled from the spec: `error.rs` is absent; the variants are the §7
taxonomy as constructed by the parser and evaluator sources. -/
inductive Error : Type where
  | undefinedSymbol (sym : String) : Error
  | undefinedFunction (sym method : String) : Error
  | invalidArguments (msg : String) : Error
  | notInvocable (msg : String) : Error
  | failedUse : Error
  | ioError : Error
  | unexpectedToken (t : Token) : Error
  | unterminatedList : Error
  | invalidQuote : Error
  | malformedInt (kind : IntParseError) : Error
  | malformedFloat : Error
  | malformedAnnot (text : String) : Error
deriving DecidableEq, Repr

/-! ## The expression data model (`expr.rs` / `ann.rs`, absent)

`Expr` is the AST/value sum type; `AExpr` is `Ann<Expr>`. Modelled from
the spec §3.3/§3.4: an `Ann` carries an optional source range and an
annotation map (key → `Expr`). `f64` payloads are kept as their source
text (`float`), since floating point is outside the shallow embedding; no
claim depends on a float value. `ForeignFunc` values are identified by
the name they are registered under in the prelude (the host closures in
`ops/*.rs` read the environment but cannot push or pop scopes, and the
snapshot's op signatures take `&Env`). -/

mutual

inductive Expr : Type where
  | one : Expr
  | boolE (b : Bool) : Expr
  | int (n : Int) : Expr
  | float (repr : String) : Expr
  | charE (c : Char) : Expr
  | stringE (s : String) : Expr
  | symbol (s : String) : Expr
  | keySymbol (s : String) : Expr
  | list (items : List AExpr) : Expr
  | array (items : List Expr) : Expr
  | dict (entries : List (String × Expr)) : Expr
  | ifE (pred onTrue : AExpr) (onFalse : Option AExpr) : Expr
  | func (params : List AExpr) (body : AExpr) : Expr
  | macroE (params : List AExpr) (body : AExpr) : Expr
  | foreignFunc (name : String) : Expr

inductive AExpr : Type where
  | mk (expr : Expr) (range : Option SrcRange) (anns : List (String × Expr)) : AExpr

end

/-- The underlying expression of an annotated expression (`Ann.0`). -/
def AExpr.expr : AExpr → Expr
  | .mk e _ _ => e

/-- The optional source range of an annotated expression. -/
def AExpr.range : AExpr → Option SrcRange
  | .mk _ r _ => r

/-- The annotation map of an annotated expression. -/
def AExpr.anns : AExpr → List (String × Expr)
  | .mk _ _ a => a

/-- Association-list lookup (the `HashMap::get` of the source, keys are
strings). -/
def assocGet (key : String) : List (String × Expr) → Option Expr
  | [] => none
  | (k, v) :: rest => if k = key then some v else assocGet key rest

/-- Association-list insert with `HashMap::insert` semantics: the new
binding overwrites any previous one for the same key. -/
def assocInsert (key : String) (v : Expr) : List (String × Expr) → List (String × Expr)
  | [] => [(key, v)]
  | (k, w) :: rest =>
    if k = key then (key, v) :: rest else (k, w) :: assocInsert key v rest

/-- `Ann::get_annotation`. -/
def AExpr.getAnnot (a : AExpr) (key : String) : Option Expr :=
  assocGet key a.anns

/-- Modelled from the spec: `Ann::get_range`, the range annotation or a
default empty range (`ann.rs` absent). -/
def AExpr.getRange (a : AExpr) : SrcRange :=
  a.range.getD (0, 0)

/-- `Expr::into::<Ann<Expr>>` / `Ann::new`: wrap with no range and no
annotations. -/
def Expr.toA (e : Expr) : AExpr := .mk e none []

/-- The underlying expression re-wrapped bare: what `quot` returns
(`value.0.clone().into()`), the argument's expression with annotations
dropped. -/
def AExpr.stripTop (a : AExpr) : AExpr := .mk a.expr none []

/-- `Ann::set_annotation` (used by the parser's annotation attachment). -/
def AExpr.setAnnot (a : AExpr) (key : String) (v : Expr) : AExpr :=
  .mk a.expr a.range (assocInsert key v a.anns)

/-- `Ann::with_range`. -/
def AExpr.withRange (e : Expr) (r : SrcRange) : AExpr := .mk e (some r) []

/-- `is_reserved_symbol` (util.rs:9). -/
def is_reserved_symbol (sym : String) : Bool :=
  match sym with
  | "do" | "ann" | "let" | "if" | "for" | "for_each" | "eval" | "quot"
  | "use" | "Char" | "Func" | "Macro" | "List" | "Array" | "Dict" => true
  | _ => false

/-- Modelled from the spec: `format_value` (`expr.rs` absent), the
canonical value-formatting rule used for dict keys; atoms format as their
natural text (strings unquoted, which is what scenario S5 relies on),
compound and callable values by a coarse placeholder. No claim depends on
the formatting of compound keys — both dict construction and dict
indexing go through this single function. -/
def format_value (e : Expr) : String :=
  match e with
  | .one => "()"
  | .boolE b => if b then "true" else "false"
  | .int n => toString n
  | .float s => s
  | .charE c => String.singleton c
  | .stringE s => s
  | .symbol s => s
  | .keySymbol s => s
  | .list _ => "(List ..)"
  | .array _ => "(Array ..)"
  | .dict _ => "(Dict ..)"
  | .ifE _ _ _ => "(if ..)"
  | .func _ _ => "(Func ..)"
  | .macroE _ _ => "(Macro ..)"
  | .foreignFunc n => n

/-! ## The environment (`eval/env.rs`, absent) -/

/-- Modelled from the spec: §3.5 Env, a stack of scopes mapping names to
annotated values; the head of the list is the innermost scope
(`eval/env.rs` is absent from the snapshot). -/
structure Env : Type where
  scopes : List (List (String × AExpr))

/-- Modelled from the spec: lookup walks from innermost to outermost
scope. -/
def Env.get (env : Env) (name : String) : Option AExpr :=
  go env.scopes
where
  go : List (List (String × AExpr)) → Option AExpr
    | [] => none
    | scope :: rest =>
      match scopeGet scope with
      | some v => some v
      | none => go rest
  scopeGet : List (String × AExpr) → Option AExpr
    | [] => none
    | (k, v) :: rest => if k = name then some v else scopeGet rest

/-- Modelled from the spec: insertion always targets the top (innermost)
scope, with `HashMap::insert` overwrite semantics. -/
def Env.insert (env : Env) (name : String) (v : AExpr) : Env :=
  match env.scopes with
  | [] => { scopes := [[(name, v)]] }
  | scope :: rest => { scopes := scopeInsert scope :: rest }
where
  scopeInsert : List (String × AExpr) → List (String × AExpr)
    | [] => [(name, v)]
    | (k, w) :: r => if k = name then (name, v) :: r else (k, w) :: scopeInsert r

/-- Modelled from the spec: `Env::push_new_scope`. -/
def Env.push_new_scope (env : Env) : Env :=
  { scopes := [] :: env.scopes }

/-- Modelled from the spec: `Env::pop` removes the innermost scope. -/
def Env.pop (env : Env) : Env :=
  { scopes := env.scopes.tail }

/-- The scope-stack depth of an environment. -/
def Env.depth (env : Env) : Nat := env.scopes.length

/-! ## Evaluator (`src/eval.rs`)

`eval` is a tree-walk over `Ann<Expr>` threading a mutable `Env`. The
embedding is fuel-indexed: every mutual function spends one unit of fuel
per call, `timeout` signals exhaustion (the Rust code simply diverges).
Rust panics — the unchecked `args[0]` of the Array/Dict head dispatch —
become the `panic` outcome, which carries no environment: a panic unwinds
past every pending `env.pop()`. -/

/-- The outcome of one evaluation: a value and the updated environment,
a ranged error and the updated environment, a Rust panic, or fuel
exhaustion. -/
inductive Res : Type where
  | ok (v : AExpr) (env : Env) : Res
  | err (e : Error × SrcRange) (env : Env) : Res
  | panic (msg : String) : Res
  | timeout : Res

/-- The outcome of `eval_args`. -/
inductive ResL : Type where
  | ok (vs : List AExpr) (env : Env) : ResL
  | err (e : Error × SrcRange) (env : Env) : ResL
  | panic (msg : String) : ResL
  | timeout : ResL

/-- The message of Rust's out-of-bounds panic for `args[0]` on an empty
argument vector. -/
def oobMsg0 : String := "index out of bounds: the len is 0 but the index is 0"

/-- The `as usize` cast of an `i64` array index (two's-complement
wrap). -/
def usizeOfI64 (i : Int) : Nat := (i % 18446744073709551616).toNat

/-- The parameter-binding loop of user-function application
(eval.rs:140): insert each `(param, arg)` pair, returning early — with
the scope already pushed and *without popping it* — when a parameter is
not a symbol. The environment reflects the insertions made before the
failure. -/
def bindParams : List (AExpr × AExpr) → Env → Option (Error × SrcRange) × Env
  | [], env => (none, env)
  | (p, arg) :: rest, env =>
    match p.expr with
    | .symbol name => bindParams rest (env.insert name arg)
    | _ => (some (.invalidArguments "parameter is not a symbol", p.getRange), env)

/-- Modelled from the spec: the host (foreign) functions of the prelude
(`ops/arithmetic.rs`, `ops/eq.rs`, `ops/io.rs` are absent). Only the
§6.2 contract matters to the claims: a foreign call receives the
evaluated arguments and the env, returns a value or a ranged error, and
cannot push or pop scopes (the snapshot's op signatures take `&Env`).
`+` is given its spec meaning on Ints as a representative. -/
def applyForeign (name : String) (args : List AExpr) (_env : Env) :
    Except (Error × SrcRange) AExpr :=
  if name = "+" then
    match args.mapM (fun a => match a.expr with | .int n => some n | _ => none) with
    | some ns => .ok (Expr.int (ns.foldl (fun a b => a + b) 0)).toA
    | none => .error (.invalidArguments "`+` requires Int arguments", (0, 0))
  else .error (.invalidArguments ("unknown foreign function `" ++ name ++ "`"), (0, 0))

/-- The `ann` special form (eval.rs:220): return the single argument's
annotation map as a `Dict` (empty when absent). -/
def annForm (tail : List AExpr) (selfRange : SrcRange) (env : Env) : Res :=
  match tail with
  | [arg] => .ok (Expr.dict arg.anns).toA env
  | _ => .err (.invalidArguments "`ann` requires one argument", selfRange) env

/-- The `quot` special form (eval.rs:253): return the single argument's
underlying expression unevaluated, annotations dropped
(`value.0.clone().into()`). -/
def quotForm (tail : List AExpr) (selfRange : SrcRange) (env : Env) : Res :=
  match tail with
  | [value] => .ok value.stripTop env
  | _ => .err (.invalidArguments "missing quote target", selfRange) env

/-- The `use` special form (eval.rs:344). The filesystem is outside the
shallow embedding: `fs::read_dir` is modelled as failing (no directory
exists); its io error is converted by the `?` operator with a default
range. No scope is pushed either way. -/
def useForm (tail : List AExpr) (selfRange : SrcRange) (env : Env) : Res :=
  match tail with
  | (.mk (.symbol _) _ _) :: _ => .err (.ioError, (0, 0)) env
  | _ => .err (.invalidArguments "malformed use expression", selfRange) env

/-- The `Char` special form (eval.rs:434): construct a `Char` from a
one-byte string literal argument. -/
def charForm (tail : List AExpr) (selfRange : SrcRange) (env : Env) : Res :=
  match tail with
  | (.mk (.stringE c) _ _) :: _ =>
    if c.utf8ByteSize = 1 then
      match c.data with
      | ch :: _ => .ok (Expr.charE ch).toA env
      | [] => .panic "called `Option::unwrap()` on a `None` value"
    else
      .err (.invalidArguments "the Char constructor requires a single-char string",
            selfRange) env
  | _ => .err (.invalidArguments "malformed Char constructor", selfRange) env

/-- The `Func` special form (eval.rs:458): capture params and body by
value; the params node must be a `List` (its *entries* are not checked
here). -/
def funcForm (tail : List AExpr) (selfRange : SrcRange) (env : Env) : Res :=
  match tail with
  | [args, body] =>
    match args with
    | .mk (.list params) _ _ => .ok (Expr.func params body).toA env
    | _ => .err (.invalidArguments "malformed func parameters definition", args.getRange) env
  | _ => .err (.invalidArguments "malformed func definition", selfRange) env

/-- The `Macro` special form (eval.rs:472). -/
def macroForm (tail : List AExpr) (selfRange : SrcRange) (env : Env) : Res :=
  match tail with
  | [args, body] =>
    match args with
    | .mk (.list params) _ _ => .ok (Expr.macroE params body).toA env
    | _ => .err (.invalidArguments "malformed macro parameters definition", args.getRange) env
  | _ => .err (.invalidArguments "malformed macro definition", selfRange) env

mutual

/-- `eval` (eval.rs:39): symbols resolve through the env (reserved
symbols and key-symbols self-evaluate, a `method` annotation is
consulted first in operator position), pre-lowered `If` evaluates its
predicate, lists dispatch on their evaluated head, and every other
variant evaluates to itself. -/
def eval : Nat → AExpr → Env → Res
  | 0, _, _ => .timeout
  | fuel + 1, e, env =>
    match e with
    | .mk (.symbol sym) _ _ =>
      if is_reserved_symbol sym then .ok e env
      else
        match e.getAnnot "method" with
        | some (.symbol method) =>
          match env.get method with
          | some value => .ok value env
          | none =>
            match env.get sym with
            | some value => .ok value env
            | none => .err (.undefinedFunction sym method, e.getRange) env
        | _ =>
          match env.get sym with
          | some value => .ok value env
          | none => .err (.undefinedSymbol sym, e.getRange) env
    | .mk (.keySymbol _) _ _ => .ok e env
    | .mk (.ifE pred onTrue onFalse) _ _ =>
      match eval fuel pred env with
      | .ok pv env1 =>
        match pv.expr with
        | .boolE b =>
          if b then eval fuel onTrue env1
          else
            match onFalse with
            | some fc => eval fuel fc env1
            | none => .ok Expr.one.toA env1
        | _ =>
          .err (.invalidArguments "the if predicate is not a boolean value", pv.getRange) env1
      | r => r
    | .mk (.list items) rng _ => evalList fuel items (rng.getD (0, 0)) env
    | _ => .ok e env

/-- The non-empty-list case of `eval` (eval.rs:103): evaluate the head,
then dispatch on its value; `selfRange` is `expr.get_range()` of the
whole list expression, used by the arity errors of the special forms. -/
def evalList : Nat → List AExpr → SrcRange → Env → Res
  | 0, _, _, _ => .timeout
  | fuel + 1, items, selfRange, env =>
    match items with
    | [] => .ok Expr.one.toA env
    | headE :: tail =>
      match eval fuel headE env with
      | .ok head env1 => evalHead fuel head tail selfRange env1
      | r => r

/-- The head-value dispatch of `eval` (eval.rs:127): user function,
foreign function, array/dict indexing, special-form symbol, or
`NotInvocable`. -/
def evalHead : Nat → AExpr → List AExpr → SrcRange → Env → Res
  | 0, _, _, _, _ => .timeout
  | fuel + 1, head, tail, selfRange, env =>
    match head.expr with
    | .func params body => applyFunc fuel params body tail env
    | .foreignFunc name => applyForeignCall fuel name tail env
    | .array arr => applyArrayIndex fuel arr tail env
    | .dict entries => applyDictIndex fuel entries tail env
    | .symbol s => evalSpecial fuel head s tail selfRange env
    | _ =>
      .err (.notInvocable ("expression `" ++ format_value head.expr ++ "`"),
            head.getRange) env

/-- User-function application (eval.rs:128): evaluate the arguments,
push a scope, bind the parameters (returning *without popping* when a
parameter is not a symbol), evaluate the body, pop on the body's Ok and
Err exits. -/
def applyFunc : Nat → List AExpr → AExpr → List AExpr → Env → Res
  | 0, _, _, _, _ => .timeout
  | fuel + 1, params, body, tail, env =>
    match eval_args fuel tail env with
    | .ok args env2 =>
      let env3 := env2.push_new_scope
      match bindParams (params.zip args) env3 with
      | (some er, env4) => .err er env4
      | (none, env4) =>
        match eval fuel body env4 with
        | .ok v env5 => .ok v env5.pop
        | .err er env5 => .err er env5.pop
        | r => r
    | .err er env2 => .err er env2
    | .panic m => .panic m
    | .timeout => .timeout

/-- Foreign-function application (eval.rs:154): evaluate the arguments
and invoke the host callable (which cannot push or pop scopes). -/
def applyForeignCall : Nat → String → List AExpr → Env → Res
  | 0, _, _, _ => .timeout
  | fuel + 1, name, tail, env =>
    match eval_args fuel tail env with
    | .ok args env2 =>
      match applyForeign name args env2 with
      | .ok v => .ok v env2
      | .error er => .err er env2
    | .err er env2 => .err er env2
    | .panic m => .panic m
    | .timeout => .timeout

/-- Array-as-head indexing (eval.rs:164): evaluate the arguments, index
`args[0]` unconditionally (panic on an empty argument list), cast the
i64 index `as usize`, out of bounds yields `One`. -/
def applyArrayIndex : Nat → List Expr → List AExpr → Env → Res
  | 0, _, _, _ => .timeout
  | fuel + 1, arr, tail, env =>
    match eval_args fuel tail env with
    | .ok args env2 =>
      match args with
      | [] => .panic oobMsg0
      | index :: _ =>
        match index.expr with
        | .int i =>
          match arr[usizeOfI64 i]? with
          | some value => .ok value.toA env2
          | none => .ok Expr.one.toA env2
        | _ =>
          .err (.invalidArguments "invalid array index, expecting Int", index.getRange) env2
    | .err er env2 => .err er env2
    | .panic m => .panic m
    | .timeout => .timeout

/-- Dict-as-head indexing (eval.rs:182): evaluate the arguments, index
`args[0]` unconditionally (panic on an empty argument list), look up the
stringified key, a missing key yields `One`. -/
def applyDictIndex : Nat → List (String × Expr) → List AExpr → Env → Res
  | 0, _, _, _ => .timeout
  | fuel + 1, entries, tail, env =>
    match eval_args fuel tail env with
    | .ok args env2 =>
      match args with
      | [] => .panic oobMsg0
      | a0 :: _ =>
        match assocGet (format_value a0.expr) entries with
        | some value => .ok value.toA env2
        | none => .ok Expr.one.toA env2
    | .err er env2 => .err er env2
    | .panic m => .panic m
    | .timeout => .timeout

/-- The special-form dispatch of `eval` (eval.rs:201): the head is an
(unevaluated-argument) reserved symbol; the arms mirror the Rust match
one helper each. -/
def evalSpecial : Nat → AExpr → String → List AExpr → SrcRange → Env → Res
  | 0, _, _, _, _, _ => .timeout
  | fuel + 1, head, s, tail, selfRange, env =>
    if s = "do" then doForm fuel tail env
    else if s = "ann" then annForm tail selfRange env
    else if s = "eval" then evalForm fuel tail selfRange env
    else if s = "quot" then quotForm tail selfRange env
    else if s = "for" then forForm fuel tail selfRange env
    else if s = "if" then ifForm fuel tail selfRange env
    else if s = "for_each" then forEachForm fuel tail selfRange env
    else if s = "use" then useForm tail selfRange env
    else if s = "let" then letLoop fuel tail env
    else if s = "Char" then charForm tail selfRange env
    else if s = "List" then listForm fuel tail env
    else if s = "Func" then funcForm tail selfRange env
    else if s = "Macro" then macroForm tail selfRange env
    else
      .err (.notInvocable ("symbol `" ++ format_value head.expr ++ "`"), head.getRange) env

/-- The `do` special form (eval.rs:206): push a scope, run the body
loop, pop only on the loop's Ok exit (the error exit propagates with the
scope still pushed, mirroring the `?`). -/
def doForm : Nat → List AExpr → Env → Res
  | 0, _, _ => .timeout
  | fuel + 1, tail, env =>
    match doLoop fuel tail Expr.one.toA env.push_new_scope with
    | .ok v env2 => .ok v env2.pop
    | r => r

/-- The `eval` special form (eval.rs:241): evaluate the argument once,
then evaluate the resulting expression. -/
def evalForm : Nat → List AExpr → SrcRange → Env → Res
  | 0, _, _, _ => .timeout
  | fuel + 1, tail, selfRange, env =>
    match tail with
    | [arg] =>
      match eval fuel arg env with
      | .ok form env1 => eval fuel form env1
      | r => r
    | _ => .err (.invalidArguments "missing expression to be evaluated", selfRange) env

/-- The `for` special form (eval.rs:261). -/
def forForm : Nat → List AExpr → SrcRange → Env → Res
  | 0, _, _, _ => .timeout
  | fuel + 1, tail, selfRange, env =>
    match tail with
    | [pred, body] => forLoop fuel pred body Expr.one.toA env
    | _ => .err (.invalidArguments "missing for arguments", selfRange) env

/-- The `if` special form (eval.rs:288): `tail.get(0)`/`get(1)`/`get(2)`
with arity errors at the whole expression's range. -/
def ifForm : Nat → List AExpr → SrcRange → Env → Res
  | 0, _, _, _ => .timeout
  | fuel + 1, tail, selfRange, env =>
    match tail with
    | [] => .err (.invalidArguments "malformed if predicate", selfRange) env
    | [_] => .err (.invalidArguments "malformed if true clause", selfRange) env
    | pred :: onTrue :: rest =>
      match eval fuel pred env with
      | .ok pv env1 =>
        match pv.expr with
        | .boolE b =>
          if b then eval fuel onTrue env1
          else
            match rest with
            | fc :: _ => eval fuel fc env1
            | [] => .ok Expr.one.toA env1
        | _ =>
          .err (.invalidArguments "the if predicate is not a boolean value", pv.getRange) env1
      | r => r

/-- The `for_each` special form (eval.rs:315): the sequence must
evaluate to an `Array` and the variable must be a symbol; a scope is
pushed around the element loop, popped only on the loop's Ok exit (the
error exit propagates with the scope still pushed, mirroring the `?`). -/
def forEachForm : Nat → List AExpr → SrcRange → Env → Res
  | 0, _, _, _ => .timeout
  | fuel + 1, tail, selfRange, env =>
    match tail with
    | [seq, var, body] =>
      match eval fuel seq env with
      | .ok seqv env1 =>
        match seqv.expr with
        | .array arr =>
          match var.expr with
          | .symbol sym =>
            match forEachLoop fuel arr sym body env1.push_new_scope with
            | .ok _ env3 => .ok Expr.one.toA env3.pop
            | r => r
          | _ =>
            .err (.invalidArguments "`for_each` requires a symbol as the second argument",
                  var.getRange) env1
        | _ =>
          .err (.invalidArguments "`for_each` requires a `Seq` as the first argument",
                seqv.getRange) env1
      | r => r
    | _ => .err (.invalidArguments "malformed `for_each`", selfRange) env

/-- The `List` special form (eval.rs:454): evaluate all arguments and
return them as a `List` value. -/
def listForm : Nat → List AExpr → Env → Res
  | 0, _, _ => .timeout
  | fuel + 1, tail, env =>
    match eval_args fuel tail env with
    | .ok args env1 => .ok (Expr.list args).toA env1
    | .err er env1 => .err er env1
    | .panic m => .panic m
    | .timeout => .timeout

/-- `eval_args` (eval.rs:31): evaluate the arguments left to right,
stopping at the first error (earlier env mutations persist). -/
def eval_args : Nat → List AExpr → Env → ResL
  | 0, _, _ => .timeout
  | _ + 1, [], env => .ok [] env
  | fuel + 1, a :: rest, env =>
    match eval fuel a env with
    | .ok v env1 =>
      match eval_args fuel rest env1 with
      | .ok vs env2 => .ok (v :: vs) env2
      | r => r
    | .err er env1 => .err er env1
    | .panic m => .panic m
    | .timeout => .timeout

/-- The body loop of the `do` special form (eval.rs:212): the `?`
propagates a child error immediately, *before* the `env.pop()` that
follows the loop. -/
def doLoop : Nat → List AExpr → AExpr → Env → Res
  | 0, _, _, _ => .timeout
  | _ + 1, [], value, env => .ok value env
  | fuel + 1, e :: rest, _, env =>
    match eval fuel e env with
    | .ok v env1 => doLoop fuel rest v env1
    | r => r

/-- The loop of the `for` special form (eval.rs:272). -/
def forLoop : Nat → AExpr → AExpr → AExpr → Env → Res
  | 0, _, _, _, _ => .timeout
  | fuel + 1, pred, body, value, env =>
    match eval fuel pred env with
    | .ok pv env1 =>
      match pv.expr with
      | .boolE b =>
        if b then
          match eval fuel body env1 with
          | .ok v env2 => forLoop fuel pred body v env2
          | r => r
        else .ok value env1
      | _ => .err (.invalidArguments "the for predicate is not a boolean value", pv.getRange) env1
    | r => r

/-- The element loop of the `for_each` special form (eval.rs:333): bind
the loop variable in the pushed scope, evaluate the body, and — via the
`?` — propagate a child error before the `env.pop()` after the loop. -/
def forEachLoop : Nat → List Expr → String → AExpr → Env → Res
  | 0, _, _, _, _ => .timeout
  | _ + 1, [], _, _, env => .ok Expr.one.toA env
  | fuel + 1, x :: rest, sym, body, env =>
    match eval fuel body (env.insert sym (AExpr.mk x none [])) with
    | .ok _ env1 => forEachLoop fuel rest sym body env1
    | r => r

/-- The pair loop of the `let` special form (eval.rs:402): for each
`(sym, value)` pair check that `sym` is a non-reserved symbol *before*
evaluating `value`; a missing value ends the loop silently; the form
returns `One`. -/
def letLoop : Nat → List AExpr → Env → Res
  | 0, _, _ => .timeout
  | _ + 1, [], env => .ok Expr.one.toA env
  | _ + 1, [_], env => .ok Expr.one.toA env
  | fuel + 1, symE :: valueE :: rest, env =>
    match symE.expr with
    | .symbol s =>
      if is_reserved_symbol s then
        .err (.invalidArguments ("let cannot shadow the reserved symbol `" ++ s ++ "`"),
              symE.getRange) env
      else
        match eval fuel valueE env with
        | .ok v env1 => letLoop fuel rest (env1.insert s v)
        | r => r
    | _ =>
      .err (.invalidArguments ("`" ++ format_value symE.expr ++ "` is not a Symbol"),
            symE.getRange) env

end

/-! ## Parser (`src/parser.rs`)

The parser consumes `(Token, Range)` pairs (its token type is the
spec-§3.2 `Token` above), accumulates recoverable errors in its state,
stops on `NonRecoverableError`, and — in the brace-delimited dict branch
— indexes `pair[1]` of a `chunks(2)` chunk without checking its length,
which panics on a singleton chunk. -/

/-- The `Parser` struct state (parser.rs:37). -/
structure Parser : Type where
  tokens : List (Token × SrcRange)
  bufferedAnnots : Option (List (String × SrcRange))
  start : Nat
  index : Nat
  lookahead : List (Token × SrcRange)
  errors : List (Error × SrcRange)

/-- `Parser::new`. -/
def Parser.new (tokens : List (Token × SrcRange)) : Parser :=
  { tokens := tokens, bufferedAnnots := none, start := 0, index := 0,
    lookahead := [], errors := [] }

/-- `Parser::next_token` (parser.rs:68): the parser index moves to the
token's range end. -/
def Parser.next_token (st : Parser) : Option (Token × SrcRange) × Parser :=
  match st.lookahead with
  | t :: rest => (some t, { st with lookahead := rest, index := t.2.2 })
  | [] =>
    match st.tokens with
    | t :: rest => (some t, { st with tokens := rest, index := t.2.2 })
    | [] => (none, st)

/-- `Parser::put_back_token`. -/
def Parser.put_back_token (t : Token × SrcRange) (st : Parser) : Parser :=
  { st with index := t.2.1, lookahead := t :: st.lookahead }

/-- `Parser::range`: `self.start..self.index`. -/
def Parser.rangeOf (st : Parser) : SrcRange := (st.start, st.index)

/-- `Parser::push_error`. -/
def Parser.push_error (e : Error) (r : SrcRange) (st : Parser) : Parser :=
  { st with errors := st.errors ++ [(e, r)] }

/-- Modelled from the spec: the shape check of `str::parse::<f64>()`.
Floating-point values are outside the shallow embedding (the `float`
variant keeps the lexeme text); the success condition is modelled as the
basic decimal-float shape, which no claim depends on. -/
def parseF64Ok (cs : List Char) : Bool :=
  let cs' := match cs with
    | '-' :: rest => rest
    | '+' :: rest => rest
    | _ => cs
  cs'.any (fun c => c.isDigit) &&
    cs'.all (fun c => c.isDigit || c = '.') &&
    (cs'.filter (fun c => c = '.')).length ≤ 1

/-- The `Token::Number` branch of `Parser::parse_expr` (parser.rs:200):
a lexeme containing `.` is parsed as a float; otherwise the `0x`/`0b`/
`0o` radix prefixes select radix 16/2/8 (removed with `str::replace`,
i.e. *every* occurrence), any other lexeme is parsed in radix 10. -/
def numberOfChars (cs : List Char) : Except Error Expr :=
  if cs.any (fun c => c = '.') then
    if parseF64Ok cs then .ok (.float ⟨cs⟩) else .error .malformedFloat
  else
    let (cs, radix) :=
      if startsWith2 '0' 'x' cs then (replace2 '0' 'x' cs, 16)
      else if startsWith2 '0' 'b' cs then (replace2 '0' 'b' cs, 2)
      else if startsWith2 '0' 'o' cs then (replace2 '0' 'o' cs, 8)
      else (cs, 10)
    match from_str_radix cs radix with
    | .ok n => .ok (.int n)
    | .error e => .error (.malformedInt e)

/-- The `Token::Number` branch applied to the lexeme string. -/
def numberExprOfLexeme (lexeme : String) : Except Error Expr :=
  numberOfChars lexeme.data

/-- The outcome of the brace-dict pairing loop. -/
inductive DictRes : Type where
  | ok (entries : List (String × Expr)) : DictRes
  | panic (msg : String) : DictRes

/-- The message of Rust's out-of-bounds panic for `pair[1]` on the
trailing singleton chunk of an odd-length `chunks(2)`. -/
def oobMsg1 : String := "index out of bounds: the len is 1 but the index is 1"

/-- The `chunks(2)` pairing loop of the `Token::LeftBrace` branch
(parser.rs:345): insert `(format_value k, v)` for each pair in order
(later duplicates overwrite), and index `pair[1]` out of bounds on the
trailing singleton chunk of an odd-length term list. -/
def dictOfTermsGo : List (String × Expr) → List AExpr → DictRes
  | acc, [] => .ok acc
  | _, [_] => .panic oobMsg1
  | acc, k :: v :: rest => dictOfTermsGo (assocInsert (format_value k.expr) v.expr acc) rest

/-- The dict built from a brace-delimited term list. -/
def dictOfTerms (args : List AExpr) : DictRes := dictOfTermsGo [] args

/-- The outcome of `Parser::parse_expr`. -/
inductive PRes : Type where
  | ok (e : Option Expr) (st : Parser) : PRes
  | nre (st : Parser) : PRes
  | panic (msg : String) : PRes
  | timeout : PRes

/-- The outcome of `Parser::parse_many`. -/
inductive PManyRes : Type where
  | ok (es : List AExpr) (st : Parser) : PManyRes
  | nre (st : Parser) : PManyRes
  | panic (msg : String) : PManyRes
  | timeout : PManyRes

/-- The outcome of `Parser::attach_annotations`. -/
inductive ARes : Type where
  | ok (a : AExpr) (st : Parser) : ARes
  | panic (msg : String) : ARes
  | timeout : ARes

/-- The outcome of `Parser::parse`. -/
inductive ParseRes : Type where
  | ok (es : List AExpr) : ParseRes
  | err (errors : List (Error × SrcRange)) : ParseRes
  | panic (msg : String) : ParseRes
  | timeout : ParseRes

mutual

/-- `Parser::parse_expr` (parser.rs:172). -/
def parse_expr : Nat → Parser → PRes
  | 0, _ => .timeout
  | fuel + 1, st =>
    match st.next_token with
    | (none, _) => .nre st
    | (some (t, range), st1) =>
      match t with
      | .comment _ => .ok none st1
      | .stringT s => .ok (some (.stringE s)) st1
      | .symbol s =>
        if s.startsWith ":" then .ok (some (.keySymbol (s.drop 1))) st1
        else if s = "true" then .ok (some (.boolE true)) st1
        else if s = "false" then .ok (some (.boolE false)) st1
        else .ok (some (.symbol s)) st1
      | .number lexeme =>
        match numberExprOfLexeme lexeme with
        | .ok e => .ok (some e) st1
        | .error err => .ok none (st1.push_error err range)
      | .annot s =>
        .ok none { st1 with bufferedAnnots := some ((st1.bufferedAnnots.getD []) ++ [(s, range)]) }
      | .quote =>
        match parse_expr fuel st1 with
        | .nre st2 => .ok none (st2.push_error .invalidQuote range)
        | .ok none st2 => .ok none (st2.push_error .invalidQuote range)
        | .ok (some target) st2 =>
          .ok (some (.list [(Expr.symbol "quot").toA, target.toA])) st2
        | .panic m => .panic m
        | .timeout => .timeout
      | .leftParen =>
        match parseManyGo fuel .rightParen [] { st1 with start := range.1 } with
        | .ok terms st3 =>
          if terms.isEmpty then .ok (some .one) st3 else .ok (some (.list terms)) st3
        | .nre st3 => .nre st3
        | .panic m => .panic m
        | .timeout => .timeout
      | .leftBracket =>
        match parseManyGo fuel .rightBracket [] { st1 with start := range.1 } with
        | .ok args st3 => .ok (some (.array (args.map AExpr.expr))) st3
        | .nre st3 => .nre st3
        | .panic m => .panic m
        | .timeout => .timeout
      | .leftBrace =>
        match parseManyGo fuel .rightBrace [] { st1 with start := range.1 } with
        | .ok args st3 =>
          match dictOfTerms args with
          | .ok entries => .ok (some (.dict entries)) st3
          | .panic m => .panic m
        | .nre st3 => .nre st3
        | .panic m => .panic m
        | .timeout => .timeout
      | .rightParen => .ok none (st1.push_error (.unexpectedToken t) range)
      | .rightBracket => .ok none (st1.push_error (.unexpectedToken t) range)
      | .rightBrace => .ok none (st1.push_error (.unexpectedToken t) range)

/-- The loop of `Parser::parse_many` (parser.rs:365): collect expressions
until the delimiter token; end of input pushes `UnterminatedList` and is
non-recoverable. -/
def parseManyGo : Nat → Token → List AExpr → Parser → PManyRes
  | 0, _, _, _ => .timeout
  | fuel + 1, delim, acc, st =>
    match st.next_token with
    | (none, _) => .nre (st.push_error .unterminatedList st.rangeOf)
    | (some tok, st1) =>
      if tok.1 = delim then .ok acc st1
      else
        match parse_expr fuel (st1.put_back_token tok) with
        | .ok (some e) st3 =>
          match attachAnnots fuel e st3 with
          | .ok ae st4 => parseManyGo fuel delim (acc ++ [ae]) st4
          | .panic m => .panic m
          | .timeout => .timeout
        | .ok none st3 => parseManyGo fuel delim acc st3
        | .nre st3 => .nre st3
        | .panic m => .panic m
        | .timeout => .timeout

/-- `Parser::attach_annotations` (parser.rs:98): wrap the expression
with the current range, then drain the buffered annotation strings. -/
def attachAnnots : Nat → Expr → Parser → ARes
  | 0, _, _ => .timeout
  | fuel + 1, e, st =>
    let ae := AExpr.withRange e st.rangeOf
    match st.bufferedAnnots with
    | none => .ok ae st
    | some annots => attachLoop fuel annots ae { st with bufferedAnnots := none }

/-- The per-annotation loop of `Parser::attach_annotations`: each
annotation body is re-lexed (through the snapshot lexer and the token
correspondence) and re-parsed; a `Symbol` body starting uppercase is a
`type` annotation, lowercase a boolean flag, a `List` body is stored
under its head symbol; anything else pushes `MalformedAnnotation` and
stops. `swap_remove(0)` on an empty parse result panics. -/
def attachLoop : Nat → List (String × SrcRange) → AExpr → Parser → ARes
  | 0, _, _, _ => .timeout
  | _ + 1, [], ae, st => .ok ae st
  | fuel + 1, (annStr, annRange) :: rest, ae, st =>
    match lex fuel annStr with
    | none => .timeout
    | some (.error _) => .ok ae (st.push_error (.malformedAnnot annStr) annRange)
    | some (.ok ltokens) =>
      match parseTopGo fuel [] (Parser.new (ltokens.map (fun tr => (tokenOfL tr.1, tr.2)))) with
      | .err errors => .ok ae { st with errors := st.errors ++ errors }
      | .ok es =>
        match es with
        | [] => .panic "swap_remove index (is 0) should be < len (is 0)"
        | annAe :: _ =>
          match annAe.expr with
          | .symbol sym =>
            if sym = "" then .ok ae (st.push_error (.malformedAnnot annStr) annRange)
            else if (sym.get 0).isUpper then
              attachLoop fuel rest (ae.setAnnot "type" (.symbol sym)) st
            else attachLoop fuel rest (ae.setAnnot sym (.boolE true)) st
          | .list l =>
            match l with
            | (.mk (.symbol sym) _ _) :: _ => attachLoop fuel rest (ae.setAnnot sym (.list l)) st
            | _ => .ok ae (st.push_error (.malformedAnnot annStr) annRange)
          | _ => .ok ae (st.push_error (.malformedAnnot annStr) annRange)
      | .panic m => .panic m
      | .timeout => .timeout

/-- The loop of `Parser::parse` (parser.rs:397): parse top-level forms,
attach annotations, stop at the first batch of collected errors or on a
non-recoverable error; return the forms or the error batch. -/
def parseTopGo : Nat → List AExpr → Parser → ParseRes
  | 0, _, _ => .timeout
  | fuel + 1, acc, st =>
    match parse_expr fuel st with
    | .nre st1 => if st1.errors.isEmpty then .ok acc else .err st1.errors
    | .ok (some e) st1 =>
      match attachAnnots fuel e st1 with
      | .ok ae st2 =>
        if st2.errors.isEmpty then parseTopGo fuel (acc ++ [ae]) st2
        else .err st2.errors
      | .panic m => .panic m
      | .timeout => .timeout
    | .ok none st1 => parseTopGo fuel acc st1
    | .panic m => .panic m
    | .timeout => .timeout

end

/-- `Parser::parse_many` entry. -/
def parse_many (fuel : Nat) (delim : Token) (st : Parser) : PManyRes :=
  parseManyGo fuel delim [] st

/-- `Parser::parse` entry. -/
def parseTop (fuel : Nat) (st : Parser) : ParseRes :=
  parseTopGo fuel [] st

/-! ## Helper lemmas and claim theorems -/

/-- Shorthand: a bare symbol node. -/
def symA (s : String) : AExpr := (Expr.symbol s).toA

/-- Shorthand: a bare list node. -/
def listA (l : List AExpr) : AExpr := (Expr.list l).toA

/-- A reserved symbol evaluates to itself, leaving the environment
untouched. -/
theorem eval_symbol_reserved (m : Nat) (s : String) (r : Option SrcRange)
    (a : List (String × Expr)) (env : Env) (h : is_reserved_symbol s = true) :
    eval (m + 1) (.mk (.symbol s) r a) env = .ok (.mk (.symbol s) r a) env := by
  simp [eval, h]

/-- C1. The spec claims scope-stack balance on every Ok/Err exit of
`eval`; the code violates it: in the `do` special form the `?` on a child
evaluation returns before the `env.pop()` that follows the loop, so
`(do x)` with `x` unbound leaves the pushed scope on the stack — the
depth grows from 1 to 2 on this Err exit (the same pattern leaks in
`for_each`, and function application leaks when a parameter is not a
symbol). -/
theorem c1_do_error_leaks_scope :
    eval 9 (listA [symA "do", symA "x"]) (Env.mk [[]]) =
      .err (.undefinedSymbol "x", (0, 0)) (Env.mk [[], []]) ∧
    (Env.mk [[], []]).depth = 2 ∧ (Env.mk [[]]).depth = 1 :=
  ⟨rfl, rfl, rfl⟩

/-- C2. Binding a reserved symbol: `(let s V)` with `s` reserved fails
with `InvalidArguments` before the value is evaluated, and returns the
environment unchanged. -/
theorem c2_let_reserved_rejected (s : String) (V : AExpr) (env : Env) (n : Nat)
    (hres : is_reserved_symbol s = true) (hn : 5 ≤ n) :
    eval n (listA [symA "let", symA s, V]) env =
      .err (.invalidArguments ("let cannot shadow the reserved symbol `" ++ s ++ "`"),
            (0, 0)) env := by
  obtain ⟨m, rfl⟩ : ∃ m, n = m + 5 := ⟨n - 5, by omega⟩
  have hlet : is_reserved_symbol "let" = true := by decide
  simp [listA, symA, Expr.toA, eval, evalList, evalHead, evalSpecial, letLoop, hlet, hres,
    AExpr.expr, AExpr.getRange, AExpr.range, AExpr.getAnnot]

/-- C2 witness: `(let do 1)` in a one-scope environment. -/
theorem c2_let_reserved_rejected_witness :
    eval 5 (listA [symA "let", symA "do", (Expr.int 1).toA]) (Env.mk [[]]) =
      .err (.invalidArguments "let cannot shadow the reserved symbol `do`", (0, 0))
        (Env.mk [[]]) :=
  c2_let_reserved_rejected "do" (Expr.int 1).toA (Env.mk [[]]) 5 (by decide) (by omega)

/-- C5. The spec claims the lexer emits `Number` tokens carrying the
lexeme text and never raises `NumberError`; the snapshot's lexer parses
the i64 itself (`Token::Number(42)`, not `Number("42")`) and raises
`NumberError` on `3$%99` — at range 5..10 of `(+ 1 3$%99)`, exactly as
the lexer's own unit test asserts. -/
theorem c5_lexer_parses_numbers_itself :
    lex 99 "(+ 1 3$%99)" = some (.error (.numberError .invalidDigit, (5, 10))) ∧
    lex 99 "42" = some (.ok [(.number 42, (0, 3))]) :=
  ⟨rfl, rfl⟩

/-- C6. The comma is whitespace, as claimed; but only `(` and `)` are
delimiters in `is_delimiter`: the four bracket/brace characters do not
terminate a lexeme and are not emitted as their own tokens — `]` lexes
as the symbol `]`, and `a[b` as the single symbol `a[b`. -/
theorem c6_brackets_not_delimiters :
    is_whitespace ',' = true ∧
    (is_delimiter '[' = false ∧ is_delimiter ']' = false ∧
     is_delimiter '{' = false ∧ is_delimiter '}' = false) ∧
    lex 99 "]" = some (.ok [(.symbol "]", (0, 2))]) ∧
    lex 99 "a,b" = some (.ok [(.symbol "a", (0, 1)), (.symbol "b", (2, 4))]) ∧
    lex 99 "a[b" = some (.ok [(.symbol "a[b", (0, 4))]) :=
  ⟨by decide, ⟨by decide, by decide, by decide, by decide⟩, rfl, rfl, rfl⟩

/-- C8. For the sole input `)` the pipeline does report a recoverable
`UnexpectedToken` — but at range 1..1, not 0..1: the lexer pushes the
`RightParen` token with the post-increment index on both ends, and the
parser reuses that token range for the error. -/
theorem c8_rparen_error_range_is_1_1 :
    lex 99 ")" = some (.ok [(.rightParen, (1, 1))]) ∧
    parseTop 99 (Parser.new [(.rightParen, (1, 1))]) =
      .err [(.unexpectedToken .rightParen, (1, 1))] ∧
    ((1, 1) : SrcRange) ≠ (0, 1) :=
  ⟨rfl, rfl, by decide⟩

/-- C9. Invoking an `Array` or `Dict` value with an empty argument list
is not turned into a ranged error: the evaluator indexes `args[0]`
unconditionally, so the embedding's partial-indexing case fires (a Rust
out-of-bounds panic), for every array, dict and environment. -/
theorem c9_zero_arg_indexing_panics :
    (∀ (arr : List Expr) (env : Env) (n : Nat), 5 ≤ n →
      eval n (listA [(Expr.array arr).toA]) env = .panic oobMsg0) ∧
    (∀ (entries : List (String × Expr)) (env : Env) (n : Nat), 5 ≤ n →
      eval n (listA [(Expr.dict entries).toA]) env = .panic oobMsg0) := by
  constructor
  · intro arr env n hn
    obtain ⟨m, rfl⟩ : ∃ m, n = m + 5 := ⟨n - 5, by omega⟩
    simp [listA, Expr.toA, eval, evalList, evalHead, applyArrayIndex, eval_args, AExpr.expr]
  · intro entries env n hn
    obtain ⟨m, rfl⟩ : ∃ m, n = m + 5 := ⟨n - 5, by omega⟩
    simp [listA, Expr.toA, eval, evalList, evalHead, applyDictIndex, eval_args, AExpr.expr]

/-- C9 witness: the empty array applied to no arguments panics. -/
theorem c9_zero_arg_indexing_panics_witness :
    eval 5 (listA [(Expr.array []).toA]) (Env.mk [[]]) = .panic oobMsg0 ∧
    eval 5 (listA [(Expr.dict []).toA]) (Env.mk [[]]) = .panic oobMsg0 :=
  ⟨c9_zero_arg_indexing_panics.1 [] (Env.mk [[]]) 5 (by omega),
   c9_zero_arg_indexing_panics.2 [] (Env.mk [[]]) 5 (by omega)⟩

/-- The `Expr` variants that evaluate to themselves: everything `eval`
handles in its key-symbol case or its final catch-all arm. -/
def Expr.isSelfEvaluating : Expr → Bool
  | .symbol _ => false
  | .list _ => false
  | .ifE _ _ _ => false
  | _ => true

/-- A self-evaluating expression evaluates to itself (annotations
included) and leaves the environment untouched. -/
theorem eval_self (m : Nat) (e : Expr) (r : Option SrcRange)
    (a : List (String × Expr)) (env : Env) (h : e.isSelfEvaluating = true) :
    eval (m + 1) (.mk e r a) env = .ok (.mk e r a) env := by
  cases e <;> simp_all [eval, Expr.isSelfEvaluating]

/-- C3. Indexing semantics of invoking a collection value as list head:
an `Array` applied to one `Int` argument returns the element for an
in-bounds index and `One` otherwise (the i64 index is cast `as usize`,
so negative indices wrap far out of bounds of any real vector, whose
length is below 2^63); a `Dict` applied to a first argument returns the
value stored under the stringified key, and `One` when absent. -/
theorem c3_collection_indexing :
    (∀ (arr : List Expr) (i : Int) (r : Option SrcRange) (a : List (String × Expr))
        (env : Env) (n : Nat), 6 ≤ n → -(2 ^ 63) ≤ i → i < 2 ^ 63 →
        arr.length < 2 ^ 63 →
      (∀ h : 0 ≤ i ∧ i.toNat < arr.length,
        eval n (listA [(Expr.array arr).toA, .mk (.int i) r a]) env =
          .ok ((arr.get ⟨i.toNat, h.2⟩).toA) env) ∧
      (¬ (0 ≤ i ∧ i.toNat < arr.length) →
        eval n (listA [(Expr.array arr).toA, .mk (.int i) r a]) env =
          .ok Expr.one.toA env)) ∧
    (∀ (entries : List (String × Expr)) (k : AExpr) (env : Env) (n : Nat),
        6 ≤ n → k.expr.isSelfEvaluating = true →
      eval n (listA [(Expr.dict entries).toA, k]) env =
        .ok (((assocGet (format_value k.expr) entries).getD Expr.one).toA) env) := by
  constructor
  · intro arr i r a env n hn hlo hhi hlen
    obtain ⟨m, rfl⟩ : ∃ m, n = m + 6 := ⟨n - 6, by omega⟩
    constructor
    · intro h
      have hwrap : usizeOfI64 i = i.toNat := by
        simp only [usizeOfI64]
        omega
      have hget : arr[i.toNat]? = some (arr.get ⟨i.toNat, h.2⟩) := by
        rw [List.getElem?_eq_getElem h.2]
        simp
      simp [listA, Expr.toA, eval, evalList, evalHead, applyArrayIndex, eval_args,
        AExpr.expr, hwrap, hget]
    · intro h
      have hout : arr.length ≤ usizeOfI64 i := by
        simp only [usizeOfI64]
        omega
      have hget : arr[usizeOfI64 i]? = none := List.getElem?_eq_none hout
      simp [listA, Expr.toA, eval, evalList, evalHead, applyArrayIndex, eval_args,
        AExpr.expr, hget]
  · intro entries k env n hn hself
    obtain ⟨m, rfl⟩ : ∃ m, n = m + 6 := ⟨n - 6, by omega⟩
    obtain ⟨ke, kr, ka⟩ := k
    simp only [AExpr.expr] at hself
    have hk := eval_self m ke kr ka env hself
    have step1 : eval_args (m + 2) [AExpr.mk ke kr ka] env = .ok [AExpr.mk ke kr ka] env := by
      simp [eval_args, hk]
    cases hg : assocGet (format_value ke) entries <;>
      simp [listA, Expr.toA, eval, evalList, evalHead, applyDictIndex, step1, AExpr.expr, hg]

/-- C3 witness: `([10 20] 1)` returns `20`, `([10 20] 5)` returns `One`,
and a dict lookup hits and misses. -/
theorem c3_collection_indexing_witness :
    eval 6 (listA [(Expr.array [.int 10, .int 20]).toA, .mk (.int 1) none []]) (Env.mk [[]]) =
      .ok (Expr.int 20).toA (Env.mk [[]]) ∧
    eval 6 (listA [(Expr.array [.int 10, .int 20]).toA, .mk (.int 5) none []]) (Env.mk [[]]) =
      .ok Expr.one.toA (Env.mk [[]]) ∧
    eval 6 (listA [(Expr.dict [("a", .int 5)]).toA, (Expr.stringE "a").toA]) (Env.mk [[]]) =
      .ok (Expr.int 5).toA (Env.mk [[]]) ∧
    eval 6 (listA [(Expr.dict [("a", .int 5)]).toA, (Expr.stringE "b").toA]) (Env.mk [[]]) =
      .ok Expr.one.toA (Env.mk [[]]) :=
  ⟨(c3_collection_indexing.1 [.int 10, .int 20] 1 none [] (Env.mk [[]]) 6
      (by omega) (by decide) (by decide) (by decide)).1 ⟨by decide, by decide⟩,
   (c3_collection_indexing.1 [.int 10, .int 20] 5 none [] (Env.mk [[]]) 6
      (by omega) (by decide) (by decide) (by decide)).2 (by decide),
   c3_collection_indexing.2 [("a", .int 5)] (Expr.stringE "a").toA (Env.mk [[]]) 6
      (by omega) (by decide),
   c3_collection_indexing.2 [("a", .int 5)] (Expr.stringE "b").toA (Env.mk [[]]) 6
      (by omega) (by decide)⟩

/-! ## C7: integer radix prefixes (the parser's number branch) -/

/-- A character that is a valid digit of the given radix
(`char::to_digit(radix)` succeeds). -/
def isDigitOfRadix (radix : Nat) (c : Char) : Bool :=
  match digitValue c with
  | some d => d < radix
  | none => false

/-- The value of a digit string interpreted in a radix (Horner form),
starting from an accumulator. -/
def digitsValFrom (radix : Nat) (acc : Int) (ds : List Char) : Int :=
  ds.foldl (fun a c => a * radix + (((digitValue c).getD 0 : Nat) : Int)) acc

/-- The value of a digit string interpreted in a radix: the spec-side
meaning of "the lexeme's digits interpreted in that radix". -/
def digitsVal (radix : Nat) (ds : List Char) : Int :=
  digitsValFrom radix 0 ds

theorem digitsValFrom_nonneg_ge (radix : Nat) (hr : 1 ≤ radix) :
    ∀ (ds : List Char) (acc : Int), 0 ≤ acc →
      0 ≤ digitsValFrom radix acc ds ∧ acc ≤ digitsValFrom radix acc ds := by
  intro ds
  induction ds with
  | nil => intro acc h; exact ⟨h, le_refl _⟩
  | cons c rest ih =>
    intro acc h
    have hd : (0 : Int) ≤ (((digitValue c).getD 0 : Nat) : Int) := Int.ofNat_nonneg _
    have hmul : acc ≤ acc * radix :=
      le_mul_of_one_le_right h (by exact_mod_cast hr)
    have hstep : (0 : Int) ≤ acc * radix + (((digitValue c).getD 0 : Nat) : Int) := by
      have : (0 : Int) ≤ acc * radix := mul_nonneg h (Int.ofNat_nonneg _)
      omega
    have := ih (acc * radix + (((digitValue c).getD 0 : Nat) : Int)) hstep
    refine ⟨this.1, ?_⟩
    calc acc ≤ acc * radix + (((digitValue c).getD 0 : Nat) : Int) := by omega
      _ ≤ _ := this.2

/-- The digit loop of `i64::from_str_radix` computes the positional
value of a valid digit string whenever that value fits in an i64. -/
theorem fromStrRadixGo_ok (radix : Nat) (hr : 1 ≤ radix) :
    ∀ (ds : List Char) (acc : Int), 0 ≤ acc →
      (∀ c ∈ ds, isDigitOfRadix radix c = true) →
      digitsValFrom radix acc ds ≤ maxI64 →
      fromStrRadixGo radix false acc ds = .ok (digitsValFrom radix acc ds) := by
  intro ds
  induction ds with
  | nil => intro acc _ _ _; simp [fromStrRadixGo, digitsValFrom]
  | cons c rest ih =>
    intro acc hacc hvalid hbound
    have hc := hvalid c (List.mem_cons_self c rest)
    obtain ⟨d, hd, hdr⟩ : ∃ d, digitValue c = some d ∧ d < radix := by
      simp only [isDigitOfRadix] at hc
      cases hdv : digitValue c with
      | none => rw [hdv] at hc; exact absurd hc (by simp)
      | some d => rw [hdv] at hc; exact ⟨d, rfl, by simpa using hc⟩
    have hstep : digitsValFrom radix acc (c :: rest) =
        digitsValFrom radix (acc * radix + (d : Int)) rest := by
      simp [digitsValFrom, List.foldl, hd]
    have hacc' : (0 : Int) ≤ acc * radix + (d : Int) := by
      have : (0 : Int) ≤ acc * radix := mul_nonneg hacc (Int.ofNat_nonneg _)
      omega
    have hbound' : digitsValFrom radix (acc * radix + (d : Int)) rest ≤ maxI64 := by
      rw [hstep] at hbound; exact hbound
    have hmid : acc * radix + (d : Int) ≤ maxI64 :=
      le_trans (digitsValFrom_nonneg_ge radix hr rest _ hacc').2 hbound'
    rw [hstep]
    have hlt : ¬ (maxI64 < acc * (radix : Int) + (d : Int)) := by omega
    simp only [fromStrRadixGo, hd, hdr, if_true, if_neg hlt]
    exact ih _ hacc' (fun x hx => hvalid x (List.mem_cons_of_mem c hx)) hbound'

/-- A valid digit is not a sign character. -/
theorem digit_not_sign (radix : Nat) (c : Char) (h : isDigitOfRadix radix c = true) :
    ¬ (c = '+') ∧ ¬ (c = '-') := by
  have hplus : digitValue '+' = none := by decide
  have hminus : digitValue '-' = none := by decide
  constructor
  · intro hc; subst hc; simp [isDigitOfRadix, hplus] at h
  · intro hc; subst hc; simp [isDigitOfRadix, hminus] at h

/-- `i64::from_str_radix` on a nonempty valid digit string returns its
positional value whenever it fits in an i64. -/
theorem from_str_radix_digits (radix : Nat) (hr : 1 ≤ radix) (ds : List Char)
    (hne : ds ≠ []) (hvalid : ∀ c ∈ ds, isDigitOfRadix radix c = true)
    (hbound : digitsVal radix ds ≤ maxI64) :
    from_str_radix ds radix = .ok (digitsVal radix ds) := by
  cases ds with
  | nil => exact absurd rfl hne
  | cons c rest =>
    have hsign := digit_not_sign radix c (hvalid c (List.mem_cons_self c rest))
    simp only [from_str_radix, if_neg hsign.1, if_neg hsign.2]
    exact fromStrRadixGo_ok radix hr (c :: rest) 0 (le_refl 0) hvalid hbound

/-- A valid digit of the radix cannot be a character whose digit test
for that radix fails (used for the prefix letters and the dot). -/
theorem digit_ne (radix : Nat) (x : Char) (c : Char) (h : isDigitOfRadix radix c = true)
    (hx : isDigitOfRadix radix x = false) : ¬ (c = x) := by
  intro hc; subst hc; rw [h] at hx; simp at hx

/-- `str::replace` of a two-character needle whose second character never
occurs in the haystack is the identity. -/
theorem replace2_id (a b : Char) :
    ∀ ds : List Char, (∀ c ∈ ds, ¬ (c = b)) → replace2 a b ds = ds := by
  intro ds
  induction ds with
  | nil => intro _; rfl
  | cons x rest ih =>
    intro h
    cases rest with
    | nil => rfl
    | cons y rest2 =>
      have hy : ¬ (y = b) := h y (List.mem_cons_of_mem x (List.mem_cons_self y rest2))
      have : ¬ (x = a ∧ y = b) := fun hxy => hy hxy.2
      simp only [replace2, if_neg this]
      congr 1
      exact ih (fun c hc => h c (List.mem_cons_of_mem x hc))

/-- A digit string of the radix cannot start with a two-character prefix
whose second character fails the digit test. -/
theorem startsWith2_false_of_digits (radix : Nat) (a x : Char)
    (hx : isDigitOfRadix radix x = false) :
    ∀ ds : List Char, (∀ c ∈ ds, isDigitOfRadix radix c = true) →
      startsWith2 a x ds = false := by
  intro ds hvalid
  cases ds with
  | nil => rfl
  | cons c0 rest =>
    cases rest with
    | nil => rfl
    | cons c1 rest2 =>
      have h1 : ¬ (c1 = x) :=
        digit_ne radix x c1 (hvalid c1 (List.mem_cons_of_mem c0 (List.mem_cons_self c1 rest2))) hx
      simp [startsWith2, h1]

/-- A digit string of any radix contains no `.`. -/
theorem digits_no_dot (radix : Nat) (ds : List Char)
    (hvalid : ∀ c ∈ ds, isDigitOfRadix radix c = true) :
    ds.any (fun c => c = '.') = false := by
  rw [List.any_eq_false]
  intro x hx
  have hdotv : digitValue '.' = none := by decide
  simp only [decide_eq_true_eq]
  intro h
  subst h
  have := hvalid '.' hx
  simp [isDigitOfRadix, hdotv] at this

/-- C7. Integer radix prefixes in the parser's `Token::Number` branch:
a leading `0x` selects radix 16, `0b` radix 2, `0o` radix 8, and any
other integer lexeme is parsed in radix 10; for a lexeme whose digits
are valid for the selected radix and whose value fits in an i64, the
resulting `Int` is the digits interpreted in that radix. -/
theorem c7_radix_prefixes :
    (∀ ds : List Char, ds ≠ [] → (∀ c ∈ ds, isDigitOfRadix 16 c = true) →
      digitsVal 16 ds ≤ maxI64 →
      numberExprOfLexeme ⟨'0' :: 'x' :: ds⟩ = .ok (.int (digitsVal 16 ds))) ∧
    (∀ ds : List Char, ds ≠ [] → (∀ c ∈ ds, isDigitOfRadix 2 c = true) →
      digitsVal 2 ds ≤ maxI64 →
      numberExprOfLexeme ⟨'0' :: 'b' :: ds⟩ = .ok (.int (digitsVal 2 ds))) ∧
    (∀ ds : List Char, ds ≠ [] → (∀ c ∈ ds, isDigitOfRadix 8 c = true) →
      digitsVal 8 ds ≤ maxI64 →
      numberExprOfLexeme ⟨'0' :: 'o' :: ds⟩ = .ok (.int (digitsVal 8 ds))) ∧
    (∀ ds : List Char, ds ≠ [] → (∀ c ∈ ds, isDigitOfRadix 10 c = true) →
      digitsVal 10 ds ≤ maxI64 →
      numberExprOfLexeme ⟨ds⟩ = .ok (.int (digitsVal 10 ds))) := by
  refine ⟨?_, ?_, ?_, ?_⟩
  · intro ds hne hvalid hbound
    have hdsdot := digits_no_dot 16 ds hvalid
    have hany : (('0' :: 'x' :: ds).any (fun c => c = '.')) = false := by
      simp [List.any_cons, hdsdot]
    have hnox : ∀ c ∈ ds, ¬ (c = 'x') :=
      fun c hc => digit_ne 16 'x' c (hvalid c hc) (by decide)
    have hrepl : replace2 '0' 'x' ('0' :: 'x' :: ds) = ds := by
      have h0 : replace2 '0' 'x' ('0' :: 'x' :: ds) = replace2 '0' 'x' ds := by
        simp [replace2]
      rw [h0, replace2_id '0' 'x' ds hnox]
    have hfsr := from_str_radix_digits 16 (by omega) ds hne hvalid hbound
    simp [numberExprOfLexeme, numberOfChars, hany, startsWith2, hrepl, hfsr, digitsVal]
  · intro ds hne hvalid hbound
    have hdsdot := digits_no_dot 2 ds hvalid
    have hany : (('0' :: 'b' :: ds).any (fun c => c = '.')) = false := by
      simp [List.any_cons, hdsdot]
    have hnob : ∀ c ∈ ds, ¬ (c = 'b') :=
      fun c hc => digit_ne 2 'b' c (hvalid c hc) (by decide)
    have hrepl : replace2 '0' 'b' ('0' :: 'b' :: ds) = ds := by
      have h0 : replace2 '0' 'b' ('0' :: 'b' :: ds) = replace2 '0' 'b' ds := by
        simp [replace2]
      rw [h0, replace2_id '0' 'b' ds hnob]
    have hfsr := from_str_radix_digits 2 (by omega) ds hne hvalid hbound
    simp [numberExprOfLexeme, numberOfChars, hany, startsWith2, hrepl, hfsr, digitsVal]
  · intro ds hne hvalid hbound
    have hdsdot := digits_no_dot 8 ds hvalid
    have hany : (('0' :: 'o' :: ds).any (fun c => c = '.')) = false := by
      simp [List.any_cons, hdsdot]
    have hnoo : ∀ c ∈ ds, ¬ (c = 'o') :=
      fun c hc => digit_ne 8 'o' c (hvalid c hc) (by decide)
    have hrepl : replace2 '0' 'o' ('0' :: 'o' :: ds) = ds := by
      have h0 : replace2 '0' 'o' ('0' :: 'o' :: ds) = replace2 '0' 'o' ds := by
        simp [replace2]
      rw [h0, replace2_id '0' 'o' ds hnoo]
    have hfsr := from_str_radix_digits 8 (by omega) ds hne hvalid hbound
    simp [numberExprOfLexeme, numberOfChars, hany, startsWith2, hrepl, hfsr, digitsVal]
  · intro ds hne hvalid hbound
    have hany := digits_no_dot 10 ds hvalid
    have hx := startsWith2_false_of_digits 10 '0' 'x' (by decide) ds hvalid
    have hb := startsWith2_false_of_digits 10 '0' 'b' (by decide) ds hvalid
    have ho := startsWith2_false_of_digits 10 '0' 'o' (by decide) ds hvalid
    have hfsr := from_str_radix_digits 10 (by omega) ds hne hvalid hbound
    simp [numberExprOfLexeme, numberOfChars, hany, hx, hb, ho, hfsr, digitsVal]

/-- C7 witness: `0xff`, `0b1010`, `0o17` and `123` parse to 255, 10, 15
and 123. -/
theorem c7_radix_prefixes_witness :
    numberExprOfLexeme "0xff" = .ok (.int 255) ∧
    numberExprOfLexeme "0b1010" = .ok (.int 10) ∧
    numberExprOfLexeme "0o17" = .ok (.int 15) ∧
    numberExprOfLexeme "123" = .ok (.int 123) :=
  ⟨c7_radix_prefixes.1 ['f', 'f'] (by decide) (by decide) (by decide),
   c7_radix_prefixes.2.1 ['1', '0', '1', '0'] (by decide) (by decide) (by decide),
   c7_radix_prefixes.2.2.1 ['1', '7'] (by decide) (by decide) (by decide),
   c7_radix_prefixes.2.2.2 ['1', '2', '3'] (by decide) (by decide) (by decide)⟩

/-! ## C10: brace-dict pairing -/

/-- `HashMap::insert` semantics of `assocInsert`: the inserted key reads
back the new value, every other key is unchanged. -/
theorem assocGet_insert (k κ : String) (v : Expr) (l : List (String × Expr)) :
    assocGet κ (assocInsert k v l) = if k = κ then some v else assocGet κ l := by
  induction l with
  | nil => simp [assocInsert, assocGet]
  | cons p rest ih =>
    obtain ⟨k1, v1⟩ := p
    by_cases hk : k1 = k
    · subst hk
      by_cases hκ : k1 = κ <;> simp [assocInsert, assocGet, hκ]
    · by_cases hκ : k1 = κ
      · subst hκ
        have hkκ : ¬ (k = k1) := fun h => hk h.symm
        simp [assocInsert, assocGet, hk, hkκ]
      · simp [assocInsert, assocGet, hk, hκ, ih]

/-- The `(stringified key, value)` pairs of a brace-dict term list, in
source order (the spec-side reading of the `chunks(2)` loop). -/
def pairsOf : List AExpr → List (String × Expr)
  | [] => []
  | [_] => []
  | k :: v :: rest => (format_value k.expr, v.expr) :: pairsOf rest

/-- `find?` over an append scans the first list first. -/
theorem find?_append {α : Type} (p : α → Bool) :
    ∀ l₁ l₂ : List α, (l₁ ++ l₂).find? p =
      (match l₁.find? p with
       | some x => some x
       | none => l₂.find? p) := by
  intro l₁ l₂
  induction l₁ with
  | nil => simp
  | cons a rest ih =>
    by_cases h : p a
    · simp [List.find?, h]
    · simp only [List.cons_append, List.find?]
      rw [Bool.not_eq_true] at h
      rw [h]
      simpa using ih

/-- An odd number of brace-dict terms drives the `chunks(2)` loop into
its singleton chunk, where `pair[1]` is out of bounds. -/
theorem dictOfTermsGo_odd :
    ∀ (args : List AExpr) (acc : List (String × Expr)), args.length % 2 = 1 →
      dictOfTermsGo acc args = .panic oobMsg1
  | [], _, h => absurd h (by simp)
  | [_], _, _ => rfl
  | _ :: v :: rest, acc, h =>
    dictOfTermsGo_odd rest _ (by simp only [List.length_cons] at h; omega)

/-- An even number of brace-dict terms builds the dict by in-order
`insert`, so a lookup returns the value of the *last* pair whose
stringified key matches, falling back to the accumulator. -/
theorem dictOfTermsGo_even :
    ∀ (args : List AExpr) (acc : List (String × Expr)), args.length % 2 = 0 →
      ∃ m, dictOfTermsGo acc args = .ok m ∧
        ∀ κ, assocGet κ m =
          (match (pairsOf args).reverse.find? (fun p => p.1 = κ) with
           | some p => some p.2
           | none => assocGet κ acc)
  | [], acc, _ => ⟨acc, rfl, fun κ => by simp [pairsOf]⟩
  | [_], _, h => absurd h (by simp)
  | k :: v :: rest, acc, h => by
    obtain ⟨m, hm, hlook⟩ :=
      dictOfTermsGo_even rest (assocInsert (format_value k.expr) v.expr acc)
        (by simp only [List.length_cons] at h; omega)
    refine ⟨m, hm, fun κ => ?_⟩
    rw [hlook κ]
    have hrev : (pairsOf (k :: v :: rest)).reverse =
        (pairsOf rest).reverse ++ [(format_value k.expr, v.expr)] := by
      simp [pairsOf]
    rw [hrev, find?_append]
    cases hf : (pairsOf rest).reverse.find? (fun p => decide (p.1 = κ)) with
    | some p => simp [hf]
    | none =>
      simp only [hf]
      rw [assocGet_insert]
      by_cases hk : format_value k.expr = κ
      · simp [List.find?, hk]
      · simp [List.find?, hk]

/-- C10. A brace-dict literal with an odd number of terms drives the
parser's `chunks(2)` pairing loop into an out-of-bounds `pair[1]`
access (a panic, not a parse error) — shown both for the loop on any
term list and for a full parse of `{ "a" }`'s token stream; with an even
number of terms each consecutive pair is inserted under its stringified
key, later duplicates overwriting earlier ones. -/
theorem c10_dict_pairing :
    (∀ args : List AExpr, args.length % 2 = 1 → dictOfTerms args = .panic oobMsg1) ∧
    (∀ args : List AExpr, args.length % 2 = 0 →
      ∃ m, dictOfTerms args = .ok m ∧
        ∀ κ, assocGet κ m =
          (match (pairsOf args).reverse.find? (fun p => p.1 = κ) with
           | some p => some p.2
           | none => none)) ∧
    parseTop 99 (Parser.new [(.leftBrace, (0, 1)), (.stringT "a", (1, 4)),
      (.rightBrace, (4, 5))]) = .panic oobMsg1 := by
  refine ⟨fun args h => dictOfTermsGo_odd args [] h, fun args h => ?_, rfl⟩
  obtain ⟨m, hm, hlook⟩ := dictOfTermsGo_even args [] h
  refine ⟨m, hm, fun κ => ?_⟩
  rw [hlook κ]
  cases hf : (pairsOf args).reverse.find? (fun p => decide (p.1 = κ)) <;>
    simp [hf, assocGet]

/-- C10 witness: the singleton term list panics, and `{ "a" 1 "a" 2 }`
reads back `2` under `"a"`. -/
theorem c10_dict_pairing_witness :
    dictOfTerms [(Expr.stringE "a").toA] = .panic oobMsg1 ∧
    dictOfTerms [(Expr.stringE "a").toA, (Expr.int 1).toA,
      (Expr.stringE "a").toA, (Expr.int 2).toA] = .ok [("a", .int 2)] :=
  ⟨c10_dict_pairing.1 [(Expr.stringE "a").toA] (by decide), rfl⟩

/-! ## C4: quot / eval round-trip

The only way the top-level annotations of an expression influence its
evaluation is the `method` lookup of the symbol case and the
`expr.get_range()` used in some error ranges; `quot` strips exactly the
top-level annotations. The lemmas below make that precise. -/

/-- Erase the range of an error outcome (error payload, value and
environment are untouched). -/
def Res.stripErrRange : Res → Res
  | .err (e, _) env => .err (e, (0, 0)) env
  | r => r

theorem annForm_stripErr (tail : List AExpr) (r1 r2 : SrcRange) (env : Env) :
    (annForm tail r1 env).stripErrRange = (annForm tail r2 env).stripErrRange := by
  rcases tail with _ | ⟨a, _ | rest⟩ <;> rfl

theorem quotForm_stripErr (tail : List AExpr) (r1 r2 : SrcRange) (env : Env) :
    (quotForm tail r1 env).stripErrRange = (quotForm tail r2 env).stripErrRange := by
  rcases tail with _ | ⟨a, _ | rest⟩ <;> rfl

theorem useForm_stripErr (tail : List AExpr) (r1 r2 : SrcRange) (env : Env) :
    (useForm tail r1 env).stripErrRange = (useForm tail r2 env).stripErrRange := by
  rcases tail with _ | ⟨⟨ea, ra, anna⟩, rest⟩
  · rfl
  · cases ea <;> rfl

theorem charForm_stripErr (tail : List AExpr) (r1 r2 : SrcRange) (env : Env) :
    (charForm tail r1 env).stripErrRange = (charForm tail r2 env).stripErrRange := by
  rcases tail with _ | ⟨⟨ea, ra, anna⟩, rest⟩
  · rfl
  · cases ea <;> try rfl
    simp only [charForm]
    split <;> rfl

theorem funcForm_stripErr (tail : List AExpr) (r1 r2 : SrcRange) (env : Env) :
    (funcForm tail r1 env).stripErrRange = (funcForm tail r2 env).stripErrRange := by
  rcases tail with _ | ⟨⟨ea, ra, anna⟩, _ | ⟨b, _ | rest⟩⟩ <;> rfl

theorem macroForm_stripErr (tail : List AExpr) (r1 r2 : SrcRange) (env : Env) :
    (macroForm tail r1 env).stripErrRange = (macroForm tail r2 env).stripErrRange := by
  rcases tail with _ | ⟨⟨ea, ra, anna⟩, _ | ⟨b, _ | rest⟩⟩ <;> rfl

theorem evalForm_stripErr (n : Nat) (tail : List AExpr) (r1 r2 : SrcRange) (env : Env) :
    (evalForm n tail r1 env).stripErrRange = (evalForm n tail r2 env).stripErrRange := by
  cases n with
  | zero => rfl
  | succ m => rcases tail with _ | ⟨a, _ | rest⟩ <;> rfl

theorem forForm_stripErr (n : Nat) (tail : List AExpr) (r1 r2 : SrcRange) (env : Env) :
    (forForm n tail r1 env).stripErrRange = (forForm n tail r2 env).stripErrRange := by
  cases n with
  | zero => rfl
  | succ m => rcases tail with _ | ⟨a, _ | ⟨b, _ | rest⟩⟩ <;> rfl

theorem ifForm_stripErr (n : Nat) (tail : List AExpr) (r1 r2 : SrcRange) (env : Env) :
    (ifForm n tail r1 env).stripErrRange = (ifForm n tail r2 env).stripErrRange := by
  cases n with
  | zero => rfl
  | succ m => rcases tail with _ | ⟨a, _ | ⟨b, rest⟩⟩ <;> rfl

theorem forEachForm_stripErr (n : Nat) (tail : List AExpr) (r1 r2 : SrcRange) (env : Env) :
    (forEachForm n tail r1 env).stripErrRange = (forEachForm n tail r2 env).stripErrRange := by
  cases n with
  | zero => rfl
  | succ m => rcases tail with _ | ⟨a, _ | ⟨b, _ | ⟨c, _ | rest⟩⟩⟩ <;> rfl

set_option maxHeartbeats 1000000 in
/-- The special-form dispatch depends on the whole expression's range
only through the ranges of the errors it reports. -/
theorem evalSpecial_stripErr (n : Nat) (head : AExpr) (s : String) (tail : List AExpr)
    (r1 r2 : SrcRange) (env : Env) :
    (evalSpecial n head s tail r1 env).stripErrRange =
      (evalSpecial n head s tail r2 env).stripErrRange := by
  cases n with
  | zero => rfl
  | succ m =>
    simp only [evalSpecial]
    by_cases h1 : s = "do"
    · simp [h1, if_true, reduceIte]
    by_cases h2 : s = "ann"
    · simp [h1, h2, if_true, if_false, reduceIte]
      exact annForm_stripErr tail r1 r2 env
    by_cases h3 : s = "eval"
    · simp [h1, h2, h3, if_true, if_false, reduceIte]
      exact evalForm_stripErr m tail r1 r2 env
    by_cases h4 : s = "quot"
    · simp [h1, h2, h3, h4, if_true, if_false, reduceIte]
      exact quotForm_stripErr tail r1 r2 env
    by_cases h5 : s = "for"
    · simp [h1, h2, h3, h4, h5, if_true, if_false, reduceIte]
      exact forForm_stripErr m tail r1 r2 env
    by_cases h6 : s = "if"
    · simp [h1, h2, h3, h4, h5, h6, if_true, if_false, reduceIte]
      exact ifForm_stripErr m tail r1 r2 env
    by_cases h7 : s = "for_each"
    · simp [h1, h2, h3, h4, h5, h6, h7, if_true, if_false, reduceIte]
      exact forEachForm_stripErr m tail r1 r2 env
    by_cases h8 : s = "use"
    · simp [h1, h2, h3, h4, h5, h6, h7, h8, if_true, if_false, reduceIte]
      exact useForm_stripErr tail r1 r2 env
    by_cases h9 : s = "let"
    · simp [h1, h2, h3, h4, h5, h6, h7, h8, h9, if_true, if_false, reduceIte]
    by_cases h10 : s = "Char"
    · simp [h1, h2, h3, h4, h5, h6, h7, h8, h9, h10, if_true, if_false, reduceIte]
      exact charForm_stripErr tail r1 r2 env
    by_cases h11 : s = "List"
    · simp [h1, h2, h3, h4, h5, h6, h7, h8, h9, h10, h11, if_true, if_false, reduceIte]
    by_cases h12 : s = "Func"
    · simp [h1, h2, h3, h4, h5, h6, h7, h8, h9, h10, h11, h12, if_true, if_false,
        reduceIte]
      exact funcForm_stripErr tail r1 r2 env
    by_cases h13 : s = "Macro"
    · simp [h1, h2, h3, h4, h5, h6, h7, h8, h9, h10, h11, h12, h13, if_true, if_false,
        reduceIte]
      exact macroForm_stripErr tail r1 r2 env
    simp [h1, h2, h3, h4, h5, h6, h7, h8, h9, h10, h11, h12, h13]

/-- The head dispatch depends on the whole expression's range only
through the special-form arm. -/
theorem evalHead_stripErr (n : Nat) (head : AExpr) (tail : List AExpr)
    (r1 r2 : SrcRange) (env : Env) :
    (evalHead n head tail r1 env).stripErrRange =
      (evalHead n head tail r2 env).stripErrRange := by
  cases n with
  | zero => rfl
  | succ m =>
    obtain ⟨he, hr, ha⟩ := head
    cases he <;> try rfl
    exact evalSpecial_stripErr m _ _ tail r1 r2 env

/-- The list dispatch of `eval` depends on the whole expression's range
only through the ranges of the errors it reports. -/
theorem evalList_stripErr (n : Nat) (items : List AExpr) (r1 r2 : SrcRange) (env : Env) :
    (evalList n items r1 env).stripErrRange = (evalList n items r2 env).stripErrRange := by
  cases n with
  | zero => rfl
  | succ m =>
    cases items with
    | nil => rfl
    | cons headE tail =>
      simp only [evalList]
      cases hE : eval m headE env with
      | ok head env1 => exact evalHead_stripErr m head tail r1 r2 env1
      | err er env1 => rfl
      | panic msg => rfl
      | timeout => rfl

/-- Outcomes equal after erasing error ranges agree on `ok` results. -/
theorem stripErr_ok {r1 r2 : Res} (h : r1.stripErrRange = r2.stripErrRange) :
    ∀ v env', r2 = .ok v env' → r1 = .ok v env' := by
  intro v env' h2
  subst h2
  cases r1 with
  | ok w enw => simpa [Res.stripErrRange] using h
  | err e enw =>
    obtain ⟨ee, er⟩ := e
    simp [Res.stripErrRange] at h
  | panic m => simp [Res.stripErrRange] at h
  | timeout => simp [Res.stripErrRange] at h

/-- A non-reserved symbol without a symbol-valued `method` annotation
evaluates by a plain environment lookup. -/
theorem eval_symbol_unreserved (m : Nat) (s : String) (r : Option SrcRange)
    (a : List (String × Expr)) (env : Env)
    (hres : ¬ is_reserved_symbol s = true)
    (hm : ∀ msym : String, assocGet "method" a ≠ some (.symbol msym)) :
    eval (m + 1) (.mk (.symbol s) r a) env =
      (match env.get s with
       | some w => .ok w env
       | none => .err (.undefinedSymbol s, (AExpr.mk (.symbol s) r a).getRange) env) := by
  cases hga : (AExpr.mk (.symbol s) r a).getAnnot "method" with
  | none => simp [eval, hres, hga]
  | some x =>
    cases x <;> simp [eval, hres, hga]
    case symbol msym =>
      exact absurd hga (hm msym)

/-- Evaluating an expression with its top-level annotations stripped
(`quot`'s output) produces the same environment and a value with the
same underlying expression whenever the original evaluation succeeds:
top-level annotations only feed the `method` lookup (excluded by the
hypothesis) and some error ranges. -/
theorem eval_stripTop (n : Nat) (E : AExpr) (env : Env)
    (hm : ∀ msym : String, E.getAnnot "method" ≠ some (Expr.symbol msym)) :
    ∀ v env', eval n E env = .ok v env' →
      ∃ v', eval n E.stripTop env = .ok v' env' ∧ v'.expr = v.expr := by
  cases n with
  | zero => intro v env' h; simp [eval] at h
  | succ m =>
    obtain ⟨ee, er, ea⟩ := E
    cases ee
    case symbol s =>
      by_cases hres : is_reserved_symbol s = true
      · intro v env' h
        rw [eval_symbol_reserved m s er ea env hres] at h
        injection h with h1 h2
        subst h1
        subst h2
        exact ⟨AExpr.mk (.symbol s) none [], eval_symbol_reserved m s none [] env hres, rfl⟩
      · have hm' : ∀ msym : String, assocGet "method" ea ≠ some (.symbol msym) := by
          intro msym hcontra
          exact hm msym (by simpa [AExpr.getAnnot, AExpr.anns] using hcontra)
        intro v env' h
        rw [eval_symbol_unreserved m s er ea env hres hm'] at h
        have hstrip := eval_symbol_unreserved m s none [] env hres
          (by intro msym hc; simp [assocGet] at hc)
        cases hg : env.get s with
        | some w =>
          rw [hg] at h
          injection h with h1 h2
          subst h1
          subst h2
          refine ⟨w, ?_, rfl⟩
          rw [AExpr.stripTop]
          simp only [AExpr.expr]
          rw [hstrip, hg]
        | none =>
          rw [hg] at h
          simp at h
    case keySymbol s =>
      intro v env' h
      simp only [eval] at h
      injection h with h1 h2
      subst h1
      subst h2
      exact ⟨AExpr.mk (.keySymbol s) none [], by simp [eval, AExpr.stripTop, AExpr.expr], rfl⟩
    case ifE p t f =>
      intro v env' h
      refine ⟨v, ?_, rfl⟩
      have hsame : eval (m + 1) (AExpr.mk (.ifE p t f) er ea).stripTop env =
          eval (m + 1) (AExpr.mk (.ifE p t f) er ea) env := rfl
      rw [hsame]
      exact h
    case list items =>
      intro v env' h
      have hstrip := evalList_stripErr m items ((0, 0) : SrcRange) (er.getD (0, 0)) env
      have h' : evalList m items (er.getD (0, 0)) env = .ok v env' := by
        simpa [eval] using h
      have h2 := stripErr_ok hstrip v env' h'
      refine ⟨v, ?_, rfl⟩
      simpa [eval, AExpr.stripTop, AExpr.expr] using h2
    all_goals
      intro v env' h
    all_goals
      simp only [eval] at h
    all_goals
      injection h with h1 h2
    all_goals
      subst h1
    all_goals
      subst h2
    all_goals
      refine ⟨AExpr.mk _ none [], ?_, rfl⟩
    all_goals
      simp [eval, AExpr.stripTop, AExpr.expr]

/-- The `quot` special form returns its argument's underlying
expression, annotations dropped, without touching the environment. -/
theorem eval_quot_strip (n : Nat) (E : AExpr) (env : Env) (hn : 4 ≤ n) :
    eval n (listA [symA "quot", E]) env = .ok E.stripTop env := by
  obtain ⟨m, rfl⟩ : ∃ m, n = m + 4 := ⟨n - 4, by omega⟩
  have hq : is_reserved_symbol "quot" = true := by decide
  simp [listA, symA, Expr.toA, eval, evalList, evalHead, evalSpecial, quotForm,
    AExpr.expr, hq]

/-- C4. `(quot E)` returns `E`'s underlying expression unevaluated with
its annotations dropped; and whenever `E` itself evaluates to a value
`v`, `(eval (quot E))` evaluates in the same environment to a value with
the same underlying expression (the dropped top-level annotations are
the only difference, and — for a parseable `E`, which never carries a
symbol-valued `method` annotation — they cannot change the result). -/
theorem c4_quot_eval_roundtrip (E : AExpr) (env : Env) (n : Nat)
    (hm : ∀ msym : String, E.getAnnot "method" ≠ some (Expr.symbol msym))
    (hn : 4 ≤ n) :
    (eval n (listA [symA "quot", E]) env = .ok E.stripTop env) ∧
    (∀ v env', eval n E env = .ok v env' →
      ∃ v', eval (n + 5) (listA [symA "eval", listA [symA "quot", E]]) env = .ok v' env' ∧
        v'.expr = v.expr) := by
  refine ⟨eval_quot_strip n E env hn, ?_⟩
  intro v env' heval
  obtain ⟨v', hv', hexpr⟩ := eval_stripTop n E env hm v env' heval
  refine ⟨v', ?_, hexpr⟩
  have h1 : eval n (listA [symA "quot", E]) env = .ok E.stripTop env :=
    eval_quot_strip n E env hn
  have h2 : evalForm (n + 1) [listA [symA "quot", E]] (0, 0) env = .ok v' env' := by
    simp only [evalForm]
    rw [h1]
    exact hv'
  have hev : is_reserved_symbol "eval" = true := by decide
  have h3 : evalSpecial (n + 2) (symA "eval") "eval" [listA [symA "quot", E]] (0, 0) env =
      .ok v' env' := by
    simp only [evalSpecial]
    simp only [show ("eval" = "do") = False by simp, show ("eval" = "ann") = False by simp,
      if_false, reduceIte]
    rw [h2]
  have h4 : evalHead (n + 3) (symA "eval") [listA [symA "quot", E]] (0, 0) env =
      .ok v' env' := by
    simp only [evalHead, symA, Expr.toA, AExpr.expr]
    rw [← h3]
    rfl
  have h5 : evalList (n + 4) [symA "eval", listA [symA "quot", E]] (0, 0) env =
      .ok v' env' := by
    simp only [evalList]
    rw [show eval (n + 3) (symA "eval") env = .ok (symA "eval") env from
      eval_symbol_reserved (n + 2) "eval" none [] env hev]
    exact h4
  show eval ((n + 4) + 1) (listA [symA "eval", listA [symA "quot", E]]) env = .ok v' env'
  simp only [listA, Expr.toA, eval, Option.getD]
  exact h5

/-- C4 witness: an annotated `Int` literal round-trips: `(quot E)`
returns the bare `7`, and `(eval (quot E))` evaluates to a value whose
underlying expression matches `E`'s. -/
theorem c4_quot_eval_roundtrip_witness :
    (eval 4 (listA [symA "quot", AExpr.mk (.int 7) (some (0, 1)) [("type", .symbol "Int")]])
        (Env.mk [[]]) = .ok (AExpr.mk (.int 7) none []) (Env.mk [[]])) ∧
    (∃ v', eval 9 (listA [symA "eval", listA [symA "quot",
        AExpr.mk (.int 7) (some (0, 1)) [("type", .symbol "Int")]]]) (Env.mk [[]]) =
          .ok v' (Env.mk [[]]) ∧ v'.expr = Expr.int 7) := by
  have h := c4_quot_eval_roundtrip (AExpr.mk (.int 7) (some (0, 1)) [("type", .symbol "Int")])
    (Env.mk [[]]) 4
    (by intro msym hc; simp [AExpr.getAnnot, AExpr.anns, assocGet] at hc)
    (by omega)
  exact ⟨h.1, h.2 (AExpr.mk (.int 7) (some (0, 1)) [("type", .symbol "Int")]) (Env.mk [[]]) rfl⟩
